import Mathlib

set_option maxRecDepth 100000

/-!
Verification development for the RTES (Real-Time Execution Service) core:
a shallow embedding of the domain model, lineage hashing, token store,
execution store and WebSocket fan-out logic, with theorems checking the
natural-language specification against the code.

JSON values are modelled by an inductive `Json`; JSON objects are
association lists ordered strictly by key, mirroring the BTreeMap that
backs serde_json maps (UTF-8 byte order on keys agrees with code-point
order, which Lean's String order implements).
-/


/-- JSON value, mirroring serde_json::Value.  Numbers are modelled as
integers; none of the verified code inspects or manipulates numeric
payloads, it only carries them through. -/
inductive Json where
  | null : Json
  | bool : Bool → Json
  | num : Int → Json
  | str : String → Json
  | arr : List Json → Json
  | obj : List (String × Json) → Json
deriving Repr

namespace Json

/-- Model of Map::get / Value::get on an object: first binding wins
(BTreeMap has unique keys, so this is the binding). -/
def getVal (k : String) : List (String × Json) → Option Json
  | [] => none
  | (k₁, v₁) :: rest => if k = k₁ then some v₁ else getVal k rest

/-- Model of BTreeMap::insert: insert at the sorted position, replacing
an equal key. -/
def insertVal (m : List (String × Json)) (k : String) (v : Json) :
    List (String × Json) :=
  match m with
  | [] => [(k, v)]
  | (k₁, v₁) :: rest =>
    if k < k₁ then (k, v) :: (k₁, v₁) :: rest
    else if k = k₁ then (k, v) :: rest
    else (k₁, v₁) :: insertVal rest k v

/-- Model of `for (k, v) in src { dst.insert(k, v) }` / Map::extend. -/
def extendVal (m : List (String × Json)) (src : List (String × Json)) :
    List (String × Json) :=
  src.foldl (fun acc kv => insertVal acc kv.1 kv.2) m

/-- Keys strictly increasing: the invariant of every serde_json map. -/
def SortedKeys (m : List (String × Json)) : Prop :=
  m.Pairwise (fun a b => a.1 < b.1)

/-- Model of Value::as_object. -/
def asObject : Json → Option (List (String × Json))
  | .obj m => some m
  | _ => none

/-- Model of Value::as_str. -/
def asStr : Json → Option String
  | .str s => some s
  | _ => none

/-- Model of Value::as_bool. -/
def asBool : Json → Option Bool
  | .bool b => some b
  | _ => none

end Json

/-! ## Domain model: lineage stacks and hashing (src/domain/models.rs)

`compute_lineage_hash` serializes the stack with serde_json and hashes the
bytes with a namespaced UUIDv5 (namespace = the RFC 4122 OID namespace).
The UUIDv5 construction (SHA-1 over namespace bytes followed by the name
bytes, with version and variant bits forced) is implemented concretely
below so that hashes evaluate inside Lean. -/

/-- One level of nested split/branch context (struct StackFrame). -/
structure StackFrame where
  split_node_id : String
  branch_id : String
  item_index : Int
  total_items : Int
deriving DecidableEq, Repr

/-- Truncation to 32 bits. -/
def w32 (n : Nat) : Nat := n % 4294967296

/-- 32-bit left rotation of a value below 2^32. -/
def rotl32 (s n : Nat) : Nat := (n * 2 ^ s + n / 2 ^ (32 - s)) % 4294967296

/-- 32-bit complement. -/
def not32 (n : Nat) : Nat := n ^^^ 4294967295

/-- Big-endian bytes of a 32-bit word. -/
def be32 (n : Nat) : List Nat :=
  [n / 16777216 % 256, n / 65536 % 256, n / 256 % 256, n % 256]

/-- Big-endian bytes of a 64-bit value. -/
def be64 (n : Nat) : List Nat :=
  [n / 72057594037927936 % 256, n / 281474976710656 % 256,
   n / 1099511627776 % 256, n / 4294967296 % 256,
   n / 16777216 % 256, n / 65536 % 256, n / 256 % 256, n % 256]

/-- SHA-1 padding: append 0x80, zero-fill to 56 mod 64, then the
big-endian bit length. -/
def sha1Pad (msg : List Nat) : List Nat :=
  msg ++ 128 :: (List.replicate ((119 - msg.length % 64) % 64) 0 ++
    be64 (msg.length * 8))

/-- Split a byte list into 64-byte blocks (fuel-driven). -/
def chunks64Go : Nat → List Nat → List (List Nat)
  | 0, _ => []
  | _, [] => []
  | fuel + 1, l => l.take 64 :: chunks64Go fuel (l.drop 64)

/-- Split a byte list into 64-byte blocks. -/
def chunks64 (l : List Nat) : List (List Nat) := chunks64Go l.length l

/-- Read the i-th big-endian 32-bit word of a block. -/
def word32At (block : List Nat) (i : Nat) : Nat :=
  block.getD (4 * i) 0 * 16777216 + block.getD (4 * i + 1) 0 * 65536 +
    block.getD (4 * i + 2) 0 * 256 + block.getD (4 * i + 3) 0

/-- The 16 input words of a SHA-1 block. -/
def sha1Words (block : List Nat) : List Nat := (List.range 16).map (word32At block)

/-- Extend 16 schedule words to 80. -/
def sha1Extend (ws : List Nat) : List Nat :=
  (List.range 64).foldl (fun acc _ =>
    let n := acc.length
    acc ++ [rotl32 1 ((((acc.getD (n - 3) 0) ^^^ (acc.getD (n - 8) 0)) ^^^
      (acc.getD (n - 14) 0)) ^^^ (acc.getD (n - 16) 0))]) ws

/-- SHA-1 round function. -/
def sha1F (i b c d : Nat) : Nat :=
  if i < 20 then (b &&& c) ||| (not32 b &&& d)
  else if i < 40 then (b ^^^ c) ^^^ d
  else if i < 60 then ((b &&& c) ||| (b &&& d)) ||| (c &&& d)
  else (b ^^^ c) ^^^ d

/-- SHA-1 round constants. -/
def sha1K (i : Nat) : Nat :=
  if i < 20 then 1518500249
  else if i < 40 then 1859775393
  else if i < 60 then 2400959708
  else 3395469782

/-- One SHA-1 block compression. -/
def sha1Compress (h : Nat × Nat × Nat × Nat × Nat) (block : List Nat) :
    Nat × Nat × Nat × Nat × Nat :=
  let ws := sha1Extend (sha1Words block)
  let r := (List.range 80).foldl (fun (r : Nat × Nat × Nat × Nat × Nat) i =>
    let temp := w32 (w32 (w32 (w32 (rotl32 5 r.1 + sha1F i r.2.1 r.2.2.1 r.2.2.2.1) +
      r.2.2.2.2) + sha1K i) + ws.getD i 0)
    (temp, r.1, rotl32 30 r.2.1, r.2.2.1, r.2.2.2.1)) h
  (w32 (h.1 + r.1), w32 (h.2.1 + r.2.1), w32 (h.2.2.1 + r.2.2.1),
    w32 (h.2.2.2.1 + r.2.2.2.1), w32 (h.2.2.2.2 + r.2.2.2.2))

/-- SHA-1 digest (20 bytes) of a byte list. -/
def sha1 (msg : List Nat) : List Nat :=
  let h := (chunks64 (sha1Pad msg)).foldl sha1Compress
    (1732584193, 4023233417, 2562383102, 271733878, 3285377520)
  be32 h.1 ++ be32 h.2.1 ++ be32 h.2.2.1 ++ be32 h.2.2.2.1 ++ be32 h.2.2.2.2

/-- Lowercase hex digit. -/
def hexDigitChar (n : Nat) : Char :=
  if n < 10 then Char.ofNat (48 + n) else Char.ofNat (87 + n)

/-- Two lowercase hex characters of a byte. -/
def byteHex (b : Nat) : List Char := [hexDigitChar (b / 16 % 256 % 16), hexDigitChar (b % 16)]

/-- The 16 bytes of the RFC 4122 OID namespace
6ba7b812-9dad-11d1-80b4-00c04fd430c8. -/
def uuid_namespace_oid : List Nat :=
  [107, 167, 184, 18, 157, 173, 17, 209, 128, 180, 0, 192, 79, 212, 48, 200]

/-- UUIDv5 (hyphenated lowercase) of namespace bytes and name bytes:
SHA-1 of namespace followed by name, truncated to 16 bytes, with the
version forced to 5 and the RFC variant forced. -/
def uuid_v5_string (ns name : List Nat) : String :=
  let d := sha1 (ns ++ name)
  let g := fun (i : Nat) => d.getD i 0
  String.mk (byteHex (g 0) ++ byteHex (g 1) ++ byteHex (g 2) ++ byteHex (g 3) ++
    ['-'] ++ byteHex (g 4) ++ byteHex (g 5) ++
    ['-'] ++ byteHex ((g 6 &&& 15) ||| 80) ++ byteHex (g 7) ++
    ['-'] ++ byteHex ((g 8 &&& 63) ||| 128) ++ byteHex (g 9) ++
    ['-'] ++ byteHex (g 10) ++ byteHex (g 11) ++ byteHex (g 12) ++
    byteHex (g 13) ++ byteHex (g 14) ++ byteHex (g 15))

/-- UTF-8 bytes of one character. -/
def charUtf8 (c : Char) : List Nat :=
  let n := c.toNat
  if n < 128 then [n]
  else if n < 2048 then [192 + n / 64, 128 + n % 64]
  else if n < 65536 then [224 + n / 4096, 128 + n / 64 % 64, 128 + n % 64]
  else [240 + n / 262144, 128 + n / 4096 % 64, 128 + n / 64 % 64, 128 + n % 64]

/-- UTF-8 bytes of a string. -/
def utf8Bytes (s : String) : List Nat := s.data.flatMap charUtf8

/-- serde_json escaping of one character inside a JSON string literal. -/
def jsonEscapeChar (c : Char) : List Char :=
  if c = '"' then ['\\', '"']
  else if c = '\\' then ['\\', '\\']
  else if c.toNat = 8 then ['\\', 'b']
  else if c = '\t' then ['\\', 't']
  else if c = '\n' then ['\\', 'n']
  else if c.toNat = 12 then ['\\', 'f']
  else if c = '\r' then ['\\', 'r']
  else if c.toNat < 32 then
    ['\\', 'u', '0', '0', hexDigitChar (c.toNat / 16), hexDigitChar (c.toNat % 16)]
  else [c]

/-- serde_json rendering of a string literal. -/
def jsonEncodeString (s : String) : String :=
  String.mk (['"'] ++ s.data.flatMap jsonEscapeChar ++ ['"'])

/-- serde_json rendering of one StackFrame (fields in declaration
order, as serde serializes struct fields). -/
def stackFrameJson (f : StackFrame) : String :=
  "\x7b\"split_node_id\":" ++ jsonEncodeString f.split_node_id ++
    ",\"branch_id\":" ++ jsonEncodeString f.branch_id ++
    ",\"item_index\":" ++ toString f.item_index ++
    ",\"total_items\":" ++ toString f.total_items ++ "\x7d"

/-- serde_json::to_vec of a lineage stack.  Serialization of this type
(strings and 32-bit integers) never fails, so the result is always
`some`; the Option mirrors the Result of serde_json::to_vec. -/
def lineage_stack_to_vec (stack : List StackFrame) : Option (List Nat) :=
  some (utf8Bytes ("[" ++ String.intercalate "," (stack.map stackFrameJson) ++ "]"))

/-- fn compute_lineage_hash (src/domain/models.rs): UUIDv5 in the OID
namespace over the canonical serialization of the stack. -/
def compute_lineage_hash (stack : List StackFrame) : Option String :=
  (lineage_stack_to_vec stack).map (fun bytes => uuid_v5_string uuid_namespace_oid bytes)

/-! ## Domain model: tokens, messages, documents (src/domain/models.rs) -/

/-- struct ExecutionToken: ephemeral authorization grant.
execution_id = none is a wildcard grant over the workflow. -/
structure ExecutionToken where
  execution_id : Option String
  workflow_id : String
  iat : Int
  exp : Int
  user_id : String
deriving DecidableEq, Repr

/-- struct ExecutionTokenPayload: wire form consumed from the token
queue, with legacy single-id and multi-id fields. -/
structure ExecutionTokenPayload where
  execution_id : Option String
  execution_ids : Option (List String)
  workflow_id : Option String
  workflow_ids : Option (List String)
  iat : Int
  exp : Int
  user_id : String
deriving DecidableEq, Repr

/-- char::is_whitespace of Rust: the Unicode White_Space property. -/
def char_is_whitespace (c : Char) : Bool :=
  let n := c.toNat
  n = 32 ∨ (9 ≤ n ∧ n ≤ 13) ∨ n = 133 ∨ n = 160 ∨ n = 5760 ∨
    (8192 ≤ n ∧ n ≤ 8202) ∨ n = 8232 ∨ n = 8233 ∨ n = 8239 ∨ n = 8287 ∨
    n = 12288

/-- str::trim of Rust: drop Unicode whitespace from both ends. -/
def str_trim (s : String) : String :=
  String.mk
    (((s.data.dropWhile char_is_whitespace).reverse.dropWhile
      char_is_whitespace).reverse)

/-- fn ExecutionTokenPayload::normalize_ids: collect the trimmed single
id (when non-empty), then each trimmed entry of the list that is
non-empty and not already present. -/
def normalize_ids (single : Option String) (many : Option (List String)) :
    List String :=
  let ids : List String :=
    match single with
    | some value => if str_trim value ≠ "" then [str_trim value] else []
    | none => []
  match many with
  | some values =>
    values.foldl (fun ids value =>
      if str_trim value ≠ "" ∧ ¬ ids.contains (str_trim value) then
        ids ++ [str_trim value]
      else ids) ids
  | none => ids

/-- fn ExecutionTokenPayload::expand: reject when no workflow id
survives normalization; emit one wildcard grant per workflow id when no
execution id survives; otherwise emit the workflow × execution
cross-product. -/
def ExecutionTokenPayload.expand (p : ExecutionTokenPayload) :
    Except String (List ExecutionToken) :=
  let workflow_ids := normalize_ids p.workflow_id p.workflow_ids
  if workflow_ids.isEmpty then
    .error "token payload must include workflow_id or workflow_ids"
  else
    let execution_ids := normalize_ids p.execution_id p.execution_ids
    if execution_ids.isEmpty then
      .ok (workflow_ids.map (fun workflow_id =>
        { execution_id := none, workflow_id := workflow_id, iat := p.iat,
          exp := p.exp, user_id := p.user_id }))
    else
      .ok (workflow_ids.flatMap (fun workflow_id =>
        execution_ids.map (fun execution_id =>
          { execution_id := some execution_id, workflow_id := workflow_id,
            iat := p.iat, exp := p.exp, user_id := p.user_id })))

/-- struct NodeError. -/
structure NodeError where
  message : String
  code : String
  details : Option Json
deriving Repr

/-- struct NodeStatusMessage. -/
structure NodeStatusMessage where
  workflow_id : String
  execution_id : String
  node_id : String
  node_name : String
  status : String
  input : Option Json
  parameters : Option Json
  output : Option Json
  error : Option NodeError
  executed_at : String
  duration_ms : Int
  branch_id : Option String
  split_node_id : Option String
  item_index : Option Int
  total_items : Option Int
  processed_count : Option Int
  aggregator_state : Option String
  lineage_stack : Option (List StackFrame)
  lineage_hash : Option String
  used_inputs : Option Json
deriving Repr

/-- struct CompletionMessage. -/
structure CompletionMessage where
  workflow_id : String
  execution_id : String
  status : String
  final_context : Json
  completed_at : String
  total_duration_ms : Int
  failure_reason : Option String
deriving Repr

/-- struct NodeExecutionMessage. -/
structure NodeExecutionMessage where
  workflow_id : String
  execution_id : String
  current_node : String
  workflow_definition : Json
  accumulated_context : Json
  lineage_stack : Option (List StackFrame)
  from_node : Option String
  is_worker_initiated : Option Bool
deriving Repr

/-- enum WorkerMessage: the tagged variant consumed on the three event
queues. -/
inductive WorkerMessage where
  | nodeStatus : NodeStatusMessage → WorkerMessage
  | workflowCompletion : CompletionMessage → WorkerMessage
  | nodeExecution : NodeExecutionMessage → WorkerMessage
deriving Repr

/-- Recognizer for the NodeExecution variant. -/
def WorkerMessage.isNodeExecution : WorkerMessage → Bool
  | .nodeExecution _ => true
  | _ => false

/-- The execution id carried by any WorkerMessage variant. -/
def WorkerMessage.executionId : WorkerMessage → String
  | .nodeStatus s => s.execution_id
  | .workflowCompletion c => c.execution_id
  | .nodeExecution m => m.execution_id

/-- struct NodeExecutionInstance: per-lineage payload persisted for a
node. -/
structure NodeExecutionInstance where
  input : Option Json
  parameters : Option Json
  output : Option Json
  status : Option String
  error : Option NodeError
  executed_at : Option String
  duration_ms : Option Int
  lineage_hash : Option String
  lineage_stack : Option (List StackFrame)
  used_inputs : Option Json
  node_type : Option String
  name : Option String
  branch_id : Option String
  split_node_id : Option String
  item_index : Option Int
  total_items : Option Int
  processed_count : Option Int
  aggregator_state : Option String
deriving Repr

/-- struct HydratedNode: latest pointer, per-lineage history, unknown
fields preserved in extra.  The two maps are modelled as association
lists. -/
structure HydratedNode where
  latest : Option NodeExecutionInstance
  lineages : List (String × NodeExecutionInstance)
  extra : List (String × Json)
deriving Repr

/-- struct ExecutionDocument (datetimes as millisecond timestamps). -/
structure ExecutionDocument where
  execution_id : String
  workflow_id : String
  workflow_definition : Json
  accumulated_context : Json
  nodes : List (String × HydratedNode)
  edges : List Json
  status : Option String
  name : Option String
  node_type : Option String
  created_at : Option Int
  updated_at : Option Int
deriving Repr

/-! ## Token store (src/infra/token_store.rs)

The Redis sorted set under the key user_id_{u} is modelled as the list
of grants stored there; add_token stores each grant JSON-encoded with
score = grant.exp, and the encode/decode round-trips, so members are
modelled directly as grants.  validate_access first removes members
with score ≤ now (ZREMRANGEBYSCORE -inf now, both bounds inclusive)
and then scans the remaining members. -/

/-- fn TokenStore::check_token_permissions: workflow ids must match;
then a wildcard grant matches any query, a specific grant matches only
the equal specific query. -/
def check_token_permissions (token : ExecutionToken)
    (target_execution_id : Option String) (target_workflow_id : String) : Bool :=
  if token.workflow_id ≠ target_workflow_id then false
  else
    match target_execution_id, token.execution_id with
    | some req_eid, some tok_eid => req_eid == tok_eid
    | some _, none => true
    | none, none => true
    | none, some _ => false

/-- fn TokenStore::remove_expired_tokens: drop members whose score
(= exp) is ≤ now. -/
def remove_expired_tokens (now : Int) (stored : List ExecutionToken) :
    List ExecutionToken :=
  stored.filter (fun t => now < t.exp)

/-- fn TokenStore::validate_access: sweep expired members of the
user's index, then return true iff any remaining grant passes
check_token_permissions. -/
def validate_access (now : Int) (user_index : List ExecutionToken)
    (target_execution_id : Option String) (target_workflow_id : String) : Bool :=
  (remove_expired_tokens now user_index).any (fun token =>
    check_token_permissions token target_execution_id target_workflow_id)

/-! ## Execution store: schema normalization (src/infra/execution_store.rs) -/

/-- Conditional extend used by edge normalization:
`for (k, v) in o { if !normalized.contains_key(k) { insert } }`. -/
def condExtendVal (m : List (String × Json)) (src : List (String × Json)) :
    List (String × Json) :=
  src.foldl (fun acc kv =>
    if (Json.getVal kv.1 acc).isSome then acc else Json.insertVal acc kv.1 kv.2) m

/-- The eight mandatory defaults seeded by fn normalize_node, in the
insertion order of the source. -/
def normalize_node_base : List (String × Json) :=
  Json.insertVal (Json.insertVal (Json.insertVal (Json.insertVal (Json.insertVal
    (Json.insertVal (Json.insertVal (Json.insertVal [] "id" (.str ""))
      "name" (.str "")) "trigger" (.bool false)) "type" (.str ""))
      "parameters" (.obj [])) "output" (.obj [])) "credentials" .null)
    "error" .null

/-- The defaults overwritten with the provided fields (`for (k, v) in
obj { normalized.insert(k, v) }`). -/
def normalize_node_extended (node_val : Json) : List (String × Json) :=
  match node_val with
  | .obj o => Json.extendVal normalize_node_base o
  | _ => normalize_node_base

/-- The type coercions of fn normalize_node on the mandatory fields. -/
def normalize_node_coerced (node_val : Json) : List (String × Json) :=
  let normalized := normalize_node_extended node_val
  let id := ((Json.getVal "id" normalized).bind Json.asStr).getD ""
  let normalized := Json.insertVal normalized "id" (.str id)
  let name := ((Json.getVal "name" normalized).bind Json.asStr).getD ""
  let normalized := Json.insertVal normalized "name" (.str name)
  let node_type := ((Json.getVal "type" normalized).bind Json.asStr).getD ""
  let normalized := Json.insertVal normalized "type" (.str node_type)
  let trigger := ((Json.getVal "trigger" normalized).bind Json.asBool).getD false
  let normalized := Json.insertVal normalized "trigger" (.bool trigger)
  let parameters := ((Json.getVal "parameters" normalized).bind Json.asObject).getD []
  let normalized := Json.insertVal normalized "parameters" (.obj parameters)
  let output := ((Json.getVal "output" normalized).bind Json.asObject).getD []
  Json.insertVal normalized "output" (.obj output)

/-- fn normalize_node as a key-value map: seed the eight mandatory
defaults, overwrite with the provided fields, coerce the mandatory
fields to their expected types, force credentials to null when present
(it always is, since it was seeded), and default error to null when
missing. -/
def normalize_node_map (node_val : Json) : List (String × Json) :=
  let normalized := normalize_node_coerced node_val
  let normalized :=
    if (Json.getVal "credentials" normalized).isSome then
      Json.insertVal normalized "credentials" .null
    else normalized
  if (Json.getVal "error" normalized).isSome then normalized
  else Json.insertVal normalized "error" .null

/-- fn normalize_node. -/
def normalize_node (node_val : Json) : Json := .obj (normalize_node_map node_val)

/-- fn normalize_edge_with_id as a key-value map: id from the edge (or
the mapping key), src and dst coerced to strings, all remaining
provided fields carried over without overwriting. -/
def normalize_edge_map (edge : Json) (fallback_id : Option String) :
    List (String × Json) :=
  let obj := edge.asObject
  let id := (((obj.bind (Json.getVal "id")).bind Json.asStr).orElse
    (fun _ => fallback_id)).getD ""
  let src := ((obj.bind (Json.getVal "src")).bind Json.asStr).getD ""
  let dst := ((obj.bind (Json.getVal "dst")).bind Json.asStr).getD ""
  let normalized := Json.insertVal [] "id" (.str id)
  let normalized := Json.insertVal normalized "src" (.str src)
  let normalized := Json.insertVal normalized "dst" (.str dst)
  match obj with
  | some o => condExtendVal normalized o
  | none => normalized

/-- fn normalize_edge_with_id. -/
def normalize_edge_with_id (edge : Json) (fallback_id : Option String) : Json :=
  .obj (normalize_edge_map edge fallback_id)

/-- fn normalize_edge. -/
def normalize_edge (edge : Json) : Json := normalize_edge_with_id edge none

/-- fn normalize_edges: an array is normalized element-wise; a mapping
id → edge becomes an array with the key as fallback id. -/
def normalize_edges (raw_edges : Option Json) : List Json :=
  match raw_edges with
  | some (.arr edges) => edges.map normalize_edge
  | some (.obj m) => m.map (fun kv => normalize_edge_with_id kv.2 (some kv.1))
  | _ => []

/-- fn normalize_nodes: an array is normalized element-wise; a mapping
node_id → node first injects the key as the id field. -/
def normalize_nodes (raw_nodes : Json) : List Json :=
  match raw_nodes with
  | .arr nodes => nodes.map normalize_node
  | .obj m =>
    m.map (fun kv =>
      let node_map := Json.insertVal [] "id" (.str kv.1)
      let node_map :=
        match kv.2 with
        | .obj o => Json.extendVal node_map o
        | _ => node_map
      normalize_node (.obj node_map))
  | _ => []

/-- fn normalize_workflow_definition: replace the edges and nodes
fields of the (possibly absent) top-level object with their normalized
arrays. -/
def normalize_workflow_definition (raw : Json) : Json :=
  let workflow := raw.asObject.getD []
  let edges := normalize_edges (raw.asObject.bind (Json.getVal "edges"))
  let workflow := Json.insertVal workflow "edges" (.arr edges)
  let nodes_value := (raw.asObject.bind (Json.getVal "nodes")).getD (.arr [])
  let nodes := normalize_nodes nodes_value
  let workflow := Json.insertVal workflow "nodes" (.arr nodes)
  .obj workflow

/-! ## Execution store: node status and completion writes -/

/-- A value set by a $set update. -/
inductive BsonFieldValue where
  | inst : NodeExecutionInstance → BsonFieldValue
  | strVal : String → BsonFieldValue
  | date : Int → BsonFieldValue
deriving Repr

/-- The $set document built by fn update_node_status for an existing
execution document, together with the effective lineage hash.  The
source computes the stack hash only for a non-empty stack, falls back
to the message hash, then to the sentinel "default"; the lineages
subpath is written only for a non-sentinel hash. -/
structure NodeStatusUpdate where
  effective_lineage_hash : String
  set_fields : List (String × BsonFieldValue)
deriving Repr

/-- The effective lineage hash of fn update_node_status: the stack hash
when the stack is non-empty, else the message hash, else the sentinel
"default". -/
def effective_lineage_hash_of (msg : NodeStatusMessage) : String :=
  ((((msg.lineage_stack).filter (fun stack => !stack.isEmpty)).bind
      compute_lineage_hash).orElse (fun _ => msg.lineage_hash)).getD "default"

/-- The NodeExecutionInstance built by fn update_node_status from the
message, carrying name and node_type over from the existing hydrated
node. -/
def node_execution_of (msg : NodeStatusMessage) (doc : ExecutionDocument)
    (lineage_hash : String) : NodeExecutionInstance :=
  let carry : Option String × Option String :=
    match doc.nodes.lookup msg.node_id with
    | none => (none, none)
    | some n =>
      ((n.latest.bind (fun l => l.name)).orElse
        (fun _ => (Json.getVal "name" n.extra).bind Json.asStr),
       (n.latest.bind (fun l => l.node_type)).orElse
        (fun _ => (Json.getVal "type" n.extra).bind Json.asStr))
  { input := msg.input, parameters := msg.parameters, output := msg.output,
    status := some msg.status, error := msg.error,
    executed_at := some msg.executed_at, duration_ms := some msg.duration_ms,
    lineage_hash := if lineage_hash = "default" then none else some lineage_hash,
    lineage_stack := msg.lineage_stack, used_inputs := msg.used_inputs,
    node_type := carry.2, name := carry.1, branch_id := msg.branch_id,
    split_node_id := msg.split_node_id, item_index := msg.item_index,
    total_items := msg.total_items, processed_count := msg.processed_count,
    aggregator_state := msg.aggregator_state }

/-- Pure core of fn update_node_status (after the document read
succeeded with an existing document): the source builds set_fields with
latest and updated_at, then appends the lineages subpath when the
effective hash is not the sentinel; the append is flattened here. -/
def update_node_status_spec (msg : NodeStatusMessage) (doc : ExecutionDocument)
    (now_ms : Int) : NodeStatusUpdate :=
  { effective_lineage_hash := effective_lineage_hash_of msg,
    set_fields :=
      if effective_lineage_hash_of msg ≠ "default" then
        [("nodes." ++ msg.node_id ++ ".latest", BsonFieldValue.inst
            (node_execution_of msg doc (effective_lineage_hash_of msg))),
         ("updated_at", BsonFieldValue.date now_ms),
         ("nodes." ++ msg.node_id ++ ".lineages." ++
             effective_lineage_hash_of msg, BsonFieldValue.inst
            (node_execution_of msg doc (effective_lineage_hash_of msg)))]
      else
        [("nodes." ++ msg.node_id ++ ".latest", BsonFieldValue.inst
            (node_execution_of msg doc (effective_lineage_hash_of msg))),
         ("updated_at", BsonFieldValue.date now_ms)] }

/-- The $set document built by fn complete_execution: only status and
updated_at. -/
def complete_update_fields (msg : CompletionMessage) (now_ms : Int) :
    List (String × BsonFieldValue) :=
  [("status", BsonFieldValue.strVal msg.status),
   ("updated_at", BsonFieldValue.date now_ms)]

/-- Outcome of the completion retry loop: attempts used, backoff sleeps
performed (milliseconds, in order) and whether the function returned
Ok. -/
structure CompletionOutcome where
  attempts : Nat
  slept_ms : List Nat
  isOk : Bool
deriving Repr, DecidableEq

/-- The `for attempt in 0..=max_retries` loop of fn complete_execution
(max_retries = 5): break on a matched document, return Ok on
exhaustion, otherwise sleep the saturating-doubling backoff (base 1 s)
and continue.  `matched attempt` tells whether the update matched a
document at that attempt. -/
def complete_execution_go (matched : Nat → Bool) :
    Nat → Nat → Nat → List Nat → CompletionOutcome
  | 0, attempt, _, slept =>
    { attempts := attempt, slept_ms := slept.reverse, isOk := true }
  | remaining + 1, attempt, backoff, slept =>
    if matched attempt then
      { attempts := attempt + 1, slept_ms := slept.reverse, isOk := true }
    else if remaining = 0 then
      { attempts := attempt + 1, slept_ms := slept.reverse, isOk := true }
    else
      complete_execution_go matched remaining (attempt + 1) (backoff * 2)
        (backoff :: slept)

/-- fn complete_execution: six attempts, base backoff 1000 ms. -/
def complete_execution (matched : Nat → Bool) : CompletionOutcome :=
  complete_execution_go matched 6 0 1000 []

/-! ## WebSocket engine (src/api/ws.rs) -/

/-- struct WsNodeUpdateDto: the flat nullable DTO sent to clients. -/
structure WsNodeUpdateDto where
  node_id : Option String
  input : Option Json
  params : Option Json
  output : Option Json
  status : Option String
  lineage_hash : Option String
  lineage_stack : Option (List StackFrame)
  split_node_id : Option String
  branch_id : Option String
  item_index : Option Int
  total_items : Option Int
  processed_count : Option Int
  aggregator_state : Option String
  used_inputs : Option Json
deriving Repr

/-- impl From<&WorkerMessage> for WsNodeUpdateDto. -/
def WsNodeUpdateDto.fromWorker : WorkerMessage → WsNodeUpdateDto
  | .nodeStatus s =>
    { node_id := some s.node_id, input := s.input, params := s.parameters,
      output := s.output, status := some s.status,
      lineage_hash := s.lineage_hash, lineage_stack := s.lineage_stack,
      split_node_id := s.split_node_id, branch_id := s.branch_id,
      item_index := s.item_index, total_items := s.total_items,
      processed_count := s.processed_count,
      aggregator_state := s.aggregator_state, used_inputs := s.used_inputs }
  | .workflowCompletion _ =>
    { node_id := none, input := none, params := none, output := none,
      status := some "completed", lineage_hash := none, lineage_stack := none,
      split_node_id := none, branch_id := none, item_index := none,
      total_items := none, processed_count := none, aggregator_state := none,
      used_inputs := none }
  | .nodeExecution _ =>
    { node_id := none, input := none, params := none, output := none,
      status := some "unknown error", lineage_hash := none,
      lineage_stack := none, split_node_id := none, branch_id := none,
      item_index := none, total_items := none, processed_count := none,
      aggregator_state := none, used_inputs := none }

/-- fn dto_from_execution_instance. -/
def dto_from_execution_instance (node_id : String)
    (exec : NodeExecutionInstance) : WsNodeUpdateDto :=
  { node_id := some node_id, input := exec.input, params := exec.parameters,
    output := exec.output, status := exec.status,
    lineage_hash := exec.lineage_hash, lineage_stack := exec.lineage_stack,
    split_node_id := exec.split_node_id, branch_id := exec.branch_id,
    item_index := exec.item_index, total_items := exec.total_items,
    processed_count := exec.processed_count,
    aggregator_state := exec.aggregator_state, used_inputs := exec.used_inputs }

/-- fn dto_with_status. -/
def dto_with_status (status : String) : WsNodeUpdateDto :=
  { node_id := none, input := none, params := none, output := none,
    status := some status, lineage_hash := none, lineage_stack := none,
    split_node_id := none, branch_id := none, item_index := none,
    total_items := none, processed_count := none, aggregator_state := none,
    used_inputs := none }

/-- The should_send predicate of the live send task in fn
handle_socket: NodeStatus and WorkflowCompletion pass only on a
matching execution id; NodeExecution never passes. -/
def should_send (execution_id : String) : WorkerMessage → Bool
  | .nodeStatus s => s.execution_id == execution_id
  | .workflowCompletion c => c.execution_id == execution_id
  | .nodeExecution _ => false

/-- What the live loop sends for one bus message: the translated DTO
when should_send holds, nothing otherwise. -/
def live_outbound (execution_id : String) (msg : WorkerMessage) :
    Option WsNodeUpdateDto :=
  if should_send execution_id msg then some (WsNodeUpdateDto.fromWorker msg)
  else none

/-- The history frames of fn handle_socket: per node, one DTO per
lineage entry when lineages is non-empty, else one DTO for latest when
set; then one DTO for a terminal document status. -/
def history_frames (doc : ExecutionDocument) : List WsNodeUpdateDto :=
  (doc.nodes.flatMap (fun kv =>
    if ¬ kv.2.lineages.isEmpty then
      kv.2.lineages.map (fun le => dto_from_execution_instance kv.1 le.2)
    else
      match kv.2.latest with
      | some exec => [dto_from_execution_instance kv.1 exec]
      | none => [])) ++
  (match doc.status with
   | some status => [dto_with_status status]
   | none => [])

/-- The full frame sequence of one WebSocket session authorized for
`execution_id`: the history derived from the document fetched for that
execution id, then the filtered live messages in bus order. -/
def session_frames (fetched : Option ExecutionDocument)
    (live : List WorkerMessage) (execution_id : String) : List WsNodeUpdateDto :=
  (match fetched with
   | some doc => history_frames doc
   | none => []) ++
  live.filterMap (live_outbound execution_id)

/-! ## HTTP handlers (src/api/handlers.rs)

fn get_execution is modelled over the results of its effectful calls:
the document fetch, the JWT extraction (none = no Authorization
header), and the two token-store checks; store failures are the
`Except.error` cases. -/

/-- HTTP responses produced by fn get_execution. -/
inductive HttpResponse where
  | okDoc : ExecutionDocument → HttpResponse
  | notFound : HttpResponse
  | unauthorized : HttpResponse
  | forbidden : HttpResponse
  | internalError : HttpResponse
deriving Repr

/-- Status code of the response. -/
def HttpResponse.code : HttpResponse → Nat
  | .okDoc _ => 200
  | .notFound => 404
  | .unauthorized => 401
  | .forbidden => 403
  | .internalError => 500

/-- fn get_execution: fetch the document first (404 when absent, 500 on
store error); only then run JWT auth or the token-based fallback. -/
def get_execution (fetch : Except Unit (Option ExecutionDocument))
    (jwt : Option (Except Unit String))
    (validate_access_for_execution : String → Except Unit Bool)
    (validate_execution_access : Except Unit Bool) : HttpResponse :=
  match fetch with
  | .error _ => .internalError
  | .ok none => .notFound
  | .ok (some doc) =>
    match jwt with
    | some (.ok user_id) =>
      match validate_access_for_execution user_id with
      | .ok true => .okDoc doc
      | .ok false => .forbidden
      | .error _ => .internalError
    | some (.error _) => .unauthorized
    | none =>
      match validate_execution_access with
      | .ok true => .okDoc doc
      | .ok false => .unauthorized
      | .error _ => .internalError

/-! ## Sample values used by witnesses -/

/-- A concrete NodeStatusMessage. -/
def sampleStatusMsg : NodeStatusMessage :=
  { workflow_id := "wf-1", execution_id := "exec-1", node_id := "node-1",
    node_name := "Node", status := "running", input := none, parameters := none,
    output := none, error := none, executed_at := "2026-01-01T00:00:00Z",
    duration_ms := 5, branch_id := none, split_node_id := none,
    item_index := none, total_items := none, processed_count := none,
    aggregator_state := none, lineage_stack := none, lineage_hash := none,
    used_inputs := none }

/-- A concrete CompletionMessage with a non-completed status. -/
def sampleCompletionMsg : CompletionMessage :=
  { workflow_id := "wf-1", execution_id := "exec-1", status := "failed",
    final_context := .obj [], completed_at := "2026-01-01T00:00:00Z",
    total_duration_ms := 10, failure_reason := some "boom" }

/-- A concrete empty execution document. -/
def sampleDoc : ExecutionDocument :=
  { execution_id := "exec-1", workflow_id := "wf-1",
    workflow_definition := .obj [], accumulated_context := .obj [], nodes := [],
    edges := [], status := none, name := none, node_type := none,
    created_at := none, updated_at := none }

/-- A concrete wildcard grant. -/
def sampleWildcardToken : ExecutionToken :=
  { execution_id := none, workflow_id := "wf-1", iat := 0, exp := 100,
    user_id := "user-1" }

/-- A concrete status message with a non-empty lineage stack. -/
def sampleStatusMsgStack : NodeStatusMessage :=
  { sampleStatusMsg with lineage_stack := some [⟨"split-1", "A", 0, 2⟩] }

/-- A concrete payload with duplicate and whitespace ids. -/
def samplePayload : ExecutionTokenPayload :=
  { execution_id := some " e1 ", execution_ids := some ["e1", "e2", "  "],
    workflow_id := none, workflow_ids := some ["w1", "w1", "w2"],
    iat := 1, exp := 2, user_id := "u" }

/-- The id chosen by fn normalize_edge_with_id. -/
def edge_id_of (e : Json) (fallback_id : Option String) : String :=
  ((((e.asObject).bind (Json.getVal "id")).bind Json.asStr).orElse
    (fun _ => fallback_id)).getD ""

/-- The src chosen by fn normalize_edge_with_id. -/
def edge_src_of (e : Json) : String :=
  (((e.asObject).bind (Json.getVal "src")).bind Json.asStr).getD ""

/-- The dst chosen by fn normalize_edge_with_id. -/
def edge_dst_of (e : Json) : String :=
  (((e.asObject).bind (Json.getVal "dst")).bind Json.asStr).getD ""

/-- The canonical form of serde_json values at the top level: a
serde_json map iterates its keys in sorted order, so every value
produced by serde deserialization satisfies this. -/
def Json.TopLevelSorted (v : Json) : Prop :=
  match v with
  | .obj m => Json.SortedKeys m
  | _ => True

/-- A concrete workflow definition with mapping-form edges and nodes. -/
def sampleWorkflow : Json :=
  .obj [("edges", .obj [("e-1", .obj [("dst", .str "b"), ("src", .str "a")])]),
        ("name", .str "wf"),
        ("nodes", .obj [("n-1", .obj [("credentials", .str "secret"),
          ("name", .str "A"), ("type", .str "http")])])]

/-- A concrete node object with credentials, a custom field and a name. -/
def sampleNodeMap : List (String × Json) :=
  [("credentials", Json.str "secret"), ("custom", Json.num 1),
   ("name", Json.str "A")]

namespace Json

theorem getVal_insertVal_self (m : List (String × Json)) (k : String) (v : Json) :
    getVal k (insertVal m k v) = some v := by
  induction m with
  | nil => simp [insertVal, getVal]
  | cons hd tl ih =>
    obtain ⟨k₁, v₁⟩ := hd
    by_cases hlt : k < k₁
    · simp [insertVal, hlt, getVal]
    · by_cases heq : k = k₁
      · simp [insertVal, hlt, heq, getVal]
      · simp [insertVal, hlt, heq, getVal, ih]

theorem getVal_insertVal_ne (m : List (String × Json)) (k k₂ : String) (v : Json)
    (h : k₂ ≠ k) : getVal k₂ (insertVal m k v) = getVal k₂ m := by
  induction m with
  | nil => simp [insertVal, getVal, h]
  | cons hd tl ih =>
    obtain ⟨k₁, v₁⟩ := hd
    by_cases hlt : k < k₁
    · simp [insertVal, hlt, getVal, h]
    · by_cases heq : k = k₁
      · subst heq
        simp [insertVal, hlt, getVal, h]
      · by_cases h₂ : k₂ = k₁
        · simp [insertVal, hlt, heq, getVal, h₂]
        · simp [insertVal, hlt, heq, getVal, h₂, ih]

theorem mem_insertVal (m : List (String × Json)) (k : String) (v : Json) :
    ∀ x ∈ insertVal m k v, x = (k, v) ∨ x ∈ m := by
  induction m with
  | nil => simp [insertVal]
  | cons hd tl ih =>
    obtain ⟨k₁, v₁⟩ := hd
    intro x hx
    by_cases hlt : k < k₁
    · rw [insertVal, if_pos hlt] at hx
      rcases List.mem_cons.mp hx with h | h
      · exact Or.inl h
      · exact Or.inr h
    · by_cases heq : k = k₁
      · rw [insertVal, if_neg hlt, if_pos heq] at hx
        rcases List.mem_cons.mp hx with h | h
        · exact Or.inl h
        · exact Or.inr (List.mem_cons_of_mem _ h)
      · rw [insertVal, if_neg hlt, if_neg heq] at hx
        rcases List.mem_cons.mp hx with h | h
        · exact Or.inr (by simp [h])
        · rcases ih x h with h' | h'
          · exact Or.inl h'
          · exact Or.inr (List.mem_cons_of_mem _ h')

theorem sortedKeys_insertVal (m : List (String × Json)) (k : String) (v : Json)
    (hm : SortedKeys m) : SortedKeys (insertVal m k v) := by
  induction m with
  | nil => simp [insertVal, SortedKeys]
  | cons hd tl ih =>
    obtain ⟨k₁, v₁⟩ := hd
    rw [SortedKeys, List.pairwise_cons] at hm
    obtain ⟨hhd, htl⟩ := hm
    by_cases hlt : k < k₁
    · rw [SortedKeys]
      simp only [insertVal, if_pos hlt]
      refine List.Pairwise.cons ?_ (List.Pairwise.cons hhd htl)
      intro b hb
      rcases List.mem_cons.mp hb with h | h
      · simpa [h] using hlt
      · exact lt_trans hlt (hhd b h)
    · by_cases heq : k = k₁
      · rw [SortedKeys]
        simp only [insertVal, if_neg hlt, if_pos heq]
        subst heq
        exact List.Pairwise.cons hhd htl
      · rw [SortedKeys]
        simp only [insertVal, if_neg hlt, if_neg heq]
        refine List.Pairwise.cons ?_ (ih htl)
        intro b hb
        rcases mem_insertVal tl k v b hb with h | h
        · have : k₁ < k := by
            rcases lt_trichotomy k k₁ with h' | h' | h'
            · exact absurd h' hlt
            · exact absurd h' heq
            · exact h'
          simpa [h] using this
        · exact hhd b h

theorem getVal_eq_none_of_lt (m : List (String × Json)) (k : String)
    (h : ∀ x ∈ m, k < x.1) : getVal k m = none := by
  induction m with
  | nil => rfl
  | cons hd tl ih =>
    have hne : k ≠ hd.1 := ne_of_lt (h hd (by simp))
    simp only [getVal, if_neg hne]
    exact ih (fun x hx => h x (by simp [hx]))

/-- Extensionality for strictly key-sorted association lists: equal
lookups imply equal lists. -/
theorem sorted_ext (m₁ m₂ : List (String × Json)) (h₁ : SortedKeys m₁)
    (h₂ : SortedKeys m₂) (h : ∀ k, getVal k m₁ = getVal k m₂) : m₁ = m₂ := by
  induction m₁ generalizing m₂ with
  | nil =>
    cases m₂ with
    | nil => rfl
    | cons hd tl =>
      have := h hd.1
      simp [getVal] at this
  | cons hd tl ih =>
    obtain ⟨k₁, v₁⟩ := hd
    cases m₂ with
    | nil =>
      have := h k₁
      simp [getVal] at this
    | cons hd₂ tl₂ =>
      obtain ⟨k₂, v₂⟩ := hd₂
      rw [SortedKeys, List.pairwise_cons] at h₁ h₂
      obtain ⟨hk₁, htl₁⟩ := h₁
      obtain ⟨hk₂, htl₂⟩ := h₂
      have hkeys : k₁ = k₂ := by
        rcases lt_trichotomy k₁ k₂ with hlt | heq | hgt
        · exfalso
          have hv := h k₁
          simp only [getVal, if_pos rfl] at hv
          rw [if_neg (ne_of_lt hlt)] at hv
          rw [getVal_eq_none_of_lt tl₂ k₁
            (fun x hx => lt_trans hlt (hk₂ x hx))] at hv
          exact Option.noConfusion hv
        · exact heq
        · exfalso
          have hv := h k₂
          simp only [getVal, if_pos rfl] at hv
          rw [if_neg (ne_of_lt hgt)] at hv
          rw [getVal_eq_none_of_lt tl k₂
            (fun x hx => lt_trans hgt (hk₁ x hx))] at hv
          exact Option.noConfusion hv.symm
      subst hkeys
      have hvals : v₁ = v₂ := by
        have hv := h k₁
        simp only [getVal, if_pos rfl] at hv
        exact Option.some.inj hv
      subst hvals
      have htails : ∀ k, getVal k tl = getVal k tl₂ := by
        intro k
        by_cases hk : k = k₁
        · subst hk
          rw [getVal_eq_none_of_lt tl k (fun x hx => hk₁ x hx),
            getVal_eq_none_of_lt tl₂ k (fun x hx => hk₂ x hx)]
        · have hv := h k
          simp only [getVal, if_neg hk] at hv
          exact hv
      rw [ih tl₂ htl₁ htl₂ htails]

theorem sortedKeys_extendVal (m src : List (String × Json))
    (hm : SortedKeys m) : SortedKeys (extendVal m src) := by
  induction src generalizing m with
  | nil => exact hm
  | cons hd tl ih =>
    exact ih (insertVal m hd.1 hd.2) (sortedKeys_insertVal m hd.1 hd.2 hm)

theorem getVal_append (l₁ l₂ : List (String × Json)) (k : String) :
    getVal k (l₁ ++ l₂) =
      match getVal k l₁ with
      | some v => some v
      | none => getVal k l₂ := by
  induction l₁ with
  | nil => simp [getVal]
  | cons hd tl ih =>
    by_cases hk : k = hd.1
    · simp [getVal, hk]
    · simp only [List.cons_append, getVal, if_neg hk]
      exact ih

/-- Lookup after a fold of inserts: the last binding in `src` wins,
falling back to the base map. -/
theorem getVal_extendVal (m src : List (String × Json)) (k : String) :
    getVal k (extendVal m src) =
      match getVal k src.reverse with
      | some v => some v
      | none => getVal k m := by
  induction src generalizing m with
  | nil => simp [extendVal, getVal]
  | cons hd tl ih =>
    obtain ⟨k₁, v₁⟩ := hd
    show getVal k (extendVal (insertVal m k₁ v₁) tl) = _
    rw [ih (insertVal m k₁ v₁), List.reverse_cons, getVal_append]
    cases hg : getVal k tl.reverse with
    | some v => rfl
    | none =>
      by_cases hk : k = k₁
      · subst hk
        rw [getVal_insertVal_self]
        simp [getVal]
      · rw [getVal_insertVal_ne m k₁ k v₁ hk]
        simp [getVal, hk]

/-- If the keys of a sorted list are unique (which strict sortedness
gives), the first and the last occurrence coincide. -/
theorem getVal_reverse_of_sorted (m : List (String × Json)) (hm : SortedKeys m)
    (k : String) : getVal k m.reverse = getVal k m := by
  induction m with
  | nil => rfl
  | cons hd tl ih =>
    rw [SortedKeys, List.pairwise_cons] at hm
    obtain ⟨hhd, htl⟩ := hm
    rw [List.reverse_cons, getVal_append, ih htl]
    by_cases hk : k = hd.1
    · subst hk
      rw [getVal_eq_none_of_lt tl _ (fun x hx => hhd x hx)]
      simp [getVal]
    · simp only [getVal, if_neg hk]
      cases getVal k tl with
      | some v => rfl
      | none => simp [getVal, hk]

/-- Inserting a binding that is already present leaves a sorted map
unchanged. -/
theorem insertVal_of_getVal_eq (m : List (String × Json)) (k : String) (v : Json)
    (hm : SortedKeys m) (h : getVal k m = some v) : insertVal m k v = m := by
  induction m with
  | nil => simp [getVal] at h
  | cons hd tl ih =>
    obtain ⟨k₁, v₁⟩ := hd
    rw [SortedKeys, List.pairwise_cons] at hm
    obtain ⟨hhd, htl⟩ := hm
    by_cases hk : k = k₁
    · subst hk
      simp only [getVal, if_pos rfl] at h
      obtain rfl := Option.some.inj h
      simp [insertVal, lt_irrefl]
    · simp only [getVal, if_neg hk] at h
      have hkm : k ∈ (tl.map Prod.fst) := by
        clear ih hhd htl
        induction tl with
        | nil => simp [getVal] at h
        | cons a b ihh =>
          by_cases hka : k = a.1
          · simp [hka]
          · simp only [getVal, if_neg hka] at h
            simp [ihh h]
      have hgt : k₁ < k := by
        rcases List.mem_map.mp hkm with ⟨x, hx, hxk⟩
        subst hxk
        exact hhd x hx
      have hnlt : ¬ k < k₁ := not_lt_of_gt hgt
      simp [insertVal, hnlt, hk, ih htl h]

end Json

theorem update_node_status_spec_eq (msg : NodeStatusMessage)
    (doc : ExecutionDocument) (now_ms : Int) :
    update_node_status_spec msg doc now_ms =
      { effective_lineage_hash := effective_lineage_hash_of msg,
        set_fields :=
          if effective_lineage_hash_of msg ≠ "default" then
            [("nodes." ++ msg.node_id ++ ".latest", BsonFieldValue.inst
                (node_execution_of msg doc (effective_lineage_hash_of msg))),
             ("updated_at", BsonFieldValue.date now_ms),
             ("nodes." ++ msg.node_id ++ ".lineages." ++
                 effective_lineage_hash_of msg, BsonFieldValue.inst
                (node_execution_of msg doc (effective_lineage_hash_of msg)))]
          else
            [("nodes." ++ msg.node_id ++ ".latest", BsonFieldValue.inst
                (node_execution_of msg doc (effective_lineage_hash_of msg))),
             ("updated_at", BsonFieldValue.date now_ms)] } := rfl

/-! ## Auxiliary facts about the lineage hash -/

theorem uuid_v5_string_length (ns name : List Nat) :
    (uuid_v5_string ns name).length = 36 := by
  show (String.mk _).length = 36
  simp [String.length, byteHex]

theorem uuid_v5_string_ne_default (ns name : List Nat) :
    uuid_v5_string ns name ≠ "default" := by
  intro h
  have hlen := congrArg String.length h
  rw [uuid_v5_string_length] at hlen
  have : ("default" : String).length = 7 := rfl
  rw [this] at hlen
  exact absurd hlen (by decide)

theorem compute_lineage_hash_eq_some (stack : List StackFrame) :
    ∃ h, compute_lineage_hash stack = some h ∧ h ≠ "default" :=
  ⟨_, rfl, uuid_v5_string_ne_default _ _⟩

/-! ## Claims -/

/-- C9: for every WorkflowCompletion message, whatever its own status
field holds, the WorkerMessage → WsNodeUpdateDto translation yields
status = "completed" and every other field null. -/
theorem claim_C9_completion_dto (c : CompletionMessage) :
    WsNodeUpdateDto.fromWorker (.workflowCompletion c) =
      { node_id := none, input := none, params := none, output := none,
        status := some "completed", lineage_hash := none, lineage_stack := none,
        split_node_id := none, branch_id := none, item_index := none,
        total_items := none, processed_count := none, aggregator_state := none,
        used_inputs := none } := rfl

/-- C10: GET /executions/:id consults the store first; when no document
is stored the response is 404 regardless of the Authorization header or
of any grant, so an unauthenticated caller can distinguish existing ids
from nonexistent ones. -/
theorem claim_C10_not_found_before_auth (jwt : Option (Except Unit String))
    (validate_access_for_execution : String → Except Unit Bool)
    (validate_execution_access : Except Unit Bool) :
    get_execution (.ok none) jwt validate_access_for_execution
        validate_execution_access = .notFound ∧
    (get_execution (.ok none) jwt validate_access_for_execution
        validate_execution_access).code = 404 :=
  ⟨rfl, rfl⟩

/-- C5: a session authorized for execution E sends a live frame only for
a NodeStatus or WorkflowCompletion whose execution_id equals E, never
for a NodeExecution, and every frame of the session is either a history
frame derived from the document fetched for E or such a live frame. -/
theorem claim_C5_session_isolation (execution_id : String)
    (fetched : Option ExecutionDocument) (live : List WorkerMessage) :
    (∀ msg dto, live_outbound execution_id msg = some dto →
      msg.executionId = execution_id ∧ msg.isNodeExecution = false ∧
        dto = WsNodeUpdateDto.fromWorker msg) ∧
    (∀ msg, msg.isNodeExecution = true → live_outbound execution_id msg = none) ∧
    (∀ dto ∈ session_frames fetched live execution_id,
      (∃ doc, fetched = some doc ∧ dto ∈ history_frames doc) ∨
      (∃ msg, msg ∈ live ∧ msg.executionId = execution_id ∧
        msg.isNodeExecution = false ∧ dto = WsNodeUpdateDto.fromWorker msg)) := by
  refine ⟨?_, ?_, ?_⟩
  · intro msg dto hsend
    rw [live_outbound] at hsend
    by_cases hss : should_send execution_id msg = true
    · rw [if_pos hss] at hsend
      obtain rfl := Option.some.inj hsend
      refine ⟨?_, ?_, rfl⟩
      · cases msg with
        | nodeStatus s =>
          simpa [should_send, WorkerMessage.executionId] using hss
        | workflowCompletion c =>
          simpa [should_send, WorkerMessage.executionId] using hss
        | nodeExecution m => simp [should_send] at hss
      · cases msg with
        | nodeStatus s => rfl
        | workflowCompletion c => rfl
        | nodeExecution m => simp [should_send] at hss
    · rw [if_neg hss] at hsend
      exact Option.noConfusion hsend
  · intro msg hne
    cases msg with
    | nodeStatus s => simp [WorkerMessage.isNodeExecution] at hne
    | workflowCompletion c => simp [WorkerMessage.isNodeExecution] at hne
    | nodeExecution m => rfl
  · intro dto hdto
    unfold session_frames at hdto
    rcases List.mem_append.mp hdto with hhist | hlive
    · left
      cases fetched with
      | none => simp at hhist
      | some doc => exact ⟨doc, rfl, hhist⟩
    · right
      obtain ⟨msg, hmem, hsend⟩ := List.mem_filterMap.mp hlive
      rw [live_outbound] at hsend
      by_cases hss : should_send execution_id msg = true
      · rw [if_pos hss] at hsend
        obtain rfl := Option.some.inj hsend
        refine ⟨msg, hmem, ?_, ?_, rfl⟩
        · cases msg with
          | nodeStatus s =>
            simpa [should_send, WorkerMessage.executionId] using hss
          | workflowCompletion c =>
            simpa [should_send, WorkerMessage.executionId] using hss
          | nodeExecution m => simp [should_send] at hss
        · cases msg with
          | nodeStatus s => rfl
          | workflowCompletion c => rfl
          | nodeExecution m => simp [should_send] at hss
      · rw [if_neg hss] at hsend
        exact Option.noConfusion hsend

/-- Witness for C5 at a concrete session and message. -/
theorem claim_C5_session_isolation_witness :
    (WorkerMessage.nodeStatus sampleStatusMsg).executionId = "exec-1" ∧
    (WorkerMessage.nodeStatus sampleStatusMsg).isNodeExecution = false ∧
    WsNodeUpdateDto.fromWorker (WorkerMessage.nodeStatus sampleStatusMsg) =
      WsNodeUpdateDto.fromWorker (WorkerMessage.nodeStatus sampleStatusMsg) :=
  (claim_C5_session_isolation "exec-1" none
    [WorkerMessage.nodeStatus sampleStatusMsg]).1
    (WorkerMessage.nodeStatus sampleStatusMsg)
    (WsNodeUpdateDto.fromWorker (WorkerMessage.nodeStatus sampleStatusMsg)) rfl

/-- C7: complete_execution sets only status and updated_at; when no
document ever matches, it performs six attempts with 1 s base doubling
backoff and still returns Ok (the completion event is dropped, not an
error). -/
theorem claim_C7_complete_execution (msg : CompletionMessage) (now_ms : Int)
    (matched : Nat → Bool) :
    complete_update_fields msg now_ms =
      [("status", BsonFieldValue.strVal msg.status),
       ("updated_at", BsonFieldValue.date now_ms)] ∧
    ((∀ i, matched i = false) →
      complete_execution matched =
        { attempts := 6, slept_ms := [1000, 2000, 4000, 8000, 16000],
          isOk := true }) := by
  refine ⟨rfl, ?_⟩
  intro h
  simp [complete_execution, complete_execution_go, h]

/-- Witness for C7 with a never-matching store. -/
theorem claim_C7_complete_execution_witness :
    complete_execution (fun _ => false) =
      { attempts := 6, slept_ms := [1000, 2000, 4000, 8000, 16000],
        isOk := true } :=
  (claim_C7_complete_execution sampleCompletionMsg 0 (fun _ => false)).2
    (fun _ => rfl)

/-- C2 counterexample: compute_lineage_hash of the empty stack is not
None; serializing the empty stack succeeds (producing the two bytes of
the empty array) and the UUIDv5 is produced. -/
theorem claim_C2_counterexample : compute_lineage_hash [] ≠ none := by
  intro h
  rw [show compute_lineage_hash [] =
    some "0b09b32a-0778-568a-8323-935d72f552c3" from rfl] at h
  exact Option.noConfusion h

/-- C2 (amended): compute_lineage_hash returns Some for every stack —
including the empty one, whose empty-stack special case lives in the
caller update_node_status, not in this function — and is deterministic:
equal stacks yield identical results. -/
theorem claim_C2_lineage_hash_total_deterministic (stack : List StackFrame) :
    (compute_lineage_hash stack).isSome = true ∧
    ∀ stack₂, stack = stack₂ →
      compute_lineage_hash stack = compute_lineage_hash stack₂ :=
  ⟨rfl, fun _ h => by rw [h]⟩

/-- Witness for C2 at a concrete stack. -/
theorem claim_C2_lineage_hash_witness :
    (compute_lineage_hash [⟨"split-1", "A", 0, 2⟩]).isSome = true ∧
    compute_lineage_hash [⟨"split-1", "A", 0, 2⟩] =
      compute_lineage_hash [⟨"split-1", "A", 0, 2⟩] :=
  ⟨(claim_C2_lineage_hash_total_deterministic [⟨"split-1", "A", 0, 2⟩]).1,
   (claim_C2_lineage_hash_total_deterministic [⟨"split-1", "A", 0, 2⟩]).2
     [⟨"split-1", "A", 0, 2⟩] rfl⟩

/-- Definitional cross-check of the hash implementation against the
reference value of UUIDv5(OID, "[]"). -/
theorem compute_lineage_hash_empty_value :
    compute_lineage_hash [] = some "0b09b32a-0778-568a-8323-935d72f552c3" := rfl

/-! ## C1: validate_access -/

theorem check_token_permissions_eq_true_iff (t : ExecutionToken)
    (e : Option String) (wf : String) :
    check_token_permissions t e wf = true ↔
      (t.workflow_id = wf ∧ (t.execution_id = none ∨ t.execution_id = e)) := by
  unfold check_token_permissions
  by_cases hwf : t.workflow_id = wf
  · rcases e with _ | x <;> rcases ht : t.execution_id with _ | y
    · simp [hwf, ht]
    · simp [hwf, ht]
    · simp [hwf, ht]
    · rw [if_neg (by simp [hwf])]
      constructor
      · intro hb
        exact ⟨hwf, Or.inr (congrArg some (eq_of_beq hb).symm)⟩
      · rintro ⟨-, hn | hn⟩
        · exact Option.noConfusion hn
        · obtain rfl := Option.some.inj hn
          simp
  · simp [hwf]

/-- C1: validate_access is true iff some unexpired grant on the user's
index matches the workflow and either is a wildcard or names exactly
the queried execution; in particular a query with no execution id is
satisfied only by wildcard grants. -/
theorem claim_C1_validate_access (now : Int) (user_index : List ExecutionToken)
    (target_execution_id : Option String) (target_workflow_id : String) :
    (validate_access now user_index target_execution_id target_workflow_id =
        true ↔
      ∃ t, t ∈ user_index ∧ now < t.exp ∧
        t.workflow_id = target_workflow_id ∧
        (t.execution_id = none ∨ t.execution_id = target_execution_id)) ∧
    (target_execution_id = none →
      (validate_access now user_index target_execution_id target_workflow_id =
          true ↔
        ∃ t, t ∈ user_index ∧ now < t.exp ∧
          t.workflow_id = target_workflow_id ∧ t.execution_id = none)) := by
  have hgen : ∀ e : Option String,
      validate_access now user_index e target_workflow_id = true ↔
        ∃ t, t ∈ user_index ∧ now < t.exp ∧
          t.workflow_id = target_workflow_id ∧
          (t.execution_id = none ∨ t.execution_id = e) := by
    intro e
    unfold validate_access remove_expired_tokens
    rw [List.any_eq_true]
    constructor
    · rintro ⟨t, htmem, hperm⟩
      rw [List.mem_filter] at htmem
      obtain ⟨hmem, hexp⟩ := htmem
      have hiff := (check_token_permissions_eq_true_iff t e _).mp hperm
      exact ⟨t, hmem, by simpa using hexp, hiff.1, hiff.2⟩
    · rintro ⟨t, hmem, hexp, hwf, hexec⟩
      exact ⟨t, List.mem_filter.mpr ⟨hmem, by simpa using hexp⟩,
        (check_token_permissions_eq_true_iff t e _).mpr ⟨hwf, hexec⟩⟩
  refine ⟨hgen target_execution_id, ?_⟩
  intro he
  subst he
  rw [hgen none]
  constructor
  · rintro ⟨t, hmem, hexp, hwf, hn | hn⟩
    · exact ⟨t, hmem, hexp, hwf, hn⟩
    · exact ⟨t, hmem, hexp, hwf, hn⟩
  · rintro ⟨t, hmem, hexp, hwf, hn⟩
    exact ⟨t, hmem, hexp, hwf, Or.inl hn⟩

/-- Witness for C1: a wildcard grant satisfies a wildcard query. -/
theorem claim_C1_validate_access_witness :
    validate_access 0 [sampleWildcardToken] none "wf-1" = true :=
  ((claim_C1_validate_access 0 [sampleWildcardToken] none "wf-1").2 rfl).mpr
    ⟨sampleWildcardToken, by simp, by decide, rfl, rfl⟩

/-! ## C3: update_node_status writes -/

/-- C3: with a non-empty lineage stack both latest and lineages.{hash}
are set to the same instance; with neither a non-empty stack nor a
message hash, the effective hash is the sentinel "default" and only
latest is set (plus updated_at). -/
theorem claim_C3_update_node_status (msg : NodeStatusMessage)
    (doc : ExecutionDocument) (now_ms : Int) :
    (∀ stack, msg.lineage_stack = some stack → stack ≠ [] →
      ∃ h inst, compute_lineage_hash stack = some h ∧
        (update_node_status_spec msg doc now_ms).effective_lineage_hash = h ∧
        (update_node_status_spec msg doc now_ms).set_fields =
          [("nodes." ++ msg.node_id ++ ".latest", BsonFieldValue.inst inst),
           ("updated_at", BsonFieldValue.date now_ms),
           ("nodes." ++ msg.node_id ++ ".lineages." ++ h,
             BsonFieldValue.inst inst)]) ∧
    ((msg.lineage_stack = none ∨ msg.lineage_stack = some []) →
      msg.lineage_hash = none →
      (update_node_status_spec msg doc now_ms).effective_lineage_hash =
        "default" ∧
      ∃ inst, (update_node_status_spec msg doc now_ms).set_fields =
        [("nodes." ++ msg.node_id ++ ".latest", BsonFieldValue.inst inst),
         ("updated_at", BsonFieldValue.date now_ms)]) := by
  constructor
  · intro stack hs hne
    obtain ⟨h, hh, hdef⟩ := compute_lineage_hash_eq_some stack
    have hfilter : (msg.lineage_stack.filter fun s => !s.isEmpty) = some stack := by
      rw [hs]
      simp [Option.filter, List.isEmpty_iff, hne]
    have heff : effective_lineage_hash_of msg = h := by
      unfold effective_lineage_hash_of
      rw [hfilter]
      simp [Option.orElse, hh]
    refine ⟨h, node_execution_of msg doc h, hh, ?_, ?_⟩
    · rw [update_node_status_spec_eq]
      exact heff
    · rw [update_node_status_spec_eq, heff, if_pos hdef]
  · intro hstack hhash
    have heff : effective_lineage_hash_of msg = "default" := by
      unfold effective_lineage_hash_of
      rcases hstack with hs | hs <;> rw [hs] <;>
        simp [Option.filter, Option.orElse, hhash]
    constructor
    · rw [update_node_status_spec_eq]
      exact heff
    · refine ⟨node_execution_of msg doc "default", ?_⟩
      rw [update_node_status_spec_eq, heff, if_neg (by simp)]

/-- Witness for C3 at concrete messages with and without a stack. -/
theorem claim_C3_update_node_status_witness :
    (∃ h inst, compute_lineage_hash [⟨"split-1", "A", 0, 2⟩] = some h ∧
      (update_node_status_spec sampleStatusMsgStack sampleDoc 0).effective_lineage_hash = h ∧
      (update_node_status_spec sampleStatusMsgStack sampleDoc 0).set_fields =
        [("nodes." ++ sampleStatusMsgStack.node_id ++ ".latest",
           BsonFieldValue.inst inst),
         ("updated_at", BsonFieldValue.date 0),
         ("nodes." ++ sampleStatusMsgStack.node_id ++ ".lineages." ++ h,
           BsonFieldValue.inst inst)]) ∧
    (update_node_status_spec sampleStatusMsg sampleDoc 0).effective_lineage_hash =
      "default" :=
  ⟨(claim_C3_update_node_status sampleStatusMsgStack sampleDoc 0).1
      [⟨"split-1", "A", 0, 2⟩] rfl (by simp),
   ((claim_C3_update_node_status sampleStatusMsg sampleDoc 0).2
      (Or.inl rfl) rfl).1⟩

/-! ## C4: token payload expansion -/

theorem normalize_fold_mem (values : List String) (acc : List String)
    (x : String) :
    (x ∈ values.foldl (fun ids value =>
      if str_trim value ≠ "" ∧ ¬ ids.contains (str_trim value) then
        ids ++ [str_trim value]
      else ids) acc) ↔
      x ∈ acc ∨ (x ≠ "" ∧ ∃ v ∈ values, str_trim v = x) := by
  induction values generalizing acc with
  | nil => simp
  | cons v rest ih =>
    rw [List.foldl_cons, ih]
    by_cases hcond : str_trim v ≠ "" ∧ ¬ acc.contains (str_trim v)
    · rw [if_pos hcond]
      have hmem : x ∈ acc ++ [str_trim v] ↔ x ∈ acc ∨ x = str_trim v := by simp
      rw [hmem]
      constructor
      · rintro ((hx | hx) | hx)
        · exact Or.inl hx
        · exact Or.inr ⟨hx ▸ hcond.1, v, by simp, hx.symm⟩
        · exact Or.inr ⟨hx.1, by
            obtain ⟨u, hu, hut⟩ := hx.2
            exact ⟨u, by simp [hu], hut⟩⟩
      · rintro (hx | ⟨hne, u, hu, hut⟩)
        · exact Or.inl (Or.inl hx)
        · rcases List.mem_cons.mp hu with rfl | hu
          · exact Or.inl (Or.inr hut.symm)
          · exact Or.inr ⟨hne, u, hu, hut⟩
    · rw [if_neg hcond]
      rcases not_and_or.mp hcond with hv | hv
      · have hv : str_trim v = "" := not_not.mp hv
        constructor
        · rintro (hx | hx)
          · exact Or.inl hx
          · exact Or.inr ⟨hx.1, by
              obtain ⟨u, hu, hut⟩ := hx.2
              exact ⟨u, by simp [hu], hut⟩⟩
        · rintro (hx | ⟨hne, u, hu, hut⟩)
          · exact Or.inl hx
          · rcases List.mem_cons.mp hu with rfl | hu
            · exact absurd (hut ▸ hv) hne
            · exact Or.inr ⟨hne, u, hu, hut⟩
      · have hv : str_trim v ∈ acc := by
          have := not_not.mp hv
          simpa using this
        constructor
        · rintro (hx | hx)
          · exact Or.inl hx
          · exact Or.inr ⟨hx.1, by
              obtain ⟨u, hu, hut⟩ := hx.2
              exact ⟨u, by simp [hu], hut⟩⟩
        · rintro (hx | ⟨hne, u, hu, hut⟩)
          · exact Or.inl hx
          · rcases List.mem_cons.mp hu with rfl | hu
            · rw [hut] at hv
              exact Or.inl hv
            · exact Or.inr ⟨hne, u, hu, hut⟩

theorem normalize_fold_nodup (values : List String) (acc : List String)
    (hacc : acc.Nodup) :
    (values.foldl (fun ids value =>
      if str_trim value ≠ "" ∧ ¬ ids.contains (str_trim value) then
        ids ++ [str_trim value]
      else ids) acc).Nodup := by
  induction values generalizing acc with
  | nil => exact hacc
  | cons v rest ih =>
    rw [List.foldl_cons]
    by_cases hcond : str_trim v ≠ "" ∧ ¬ acc.contains (str_trim v)
    · rw [if_pos hcond]
      refine ih _ ?_
      rw [List.nodup_append]
      refine ⟨hacc, List.nodup_singleton _, ?_⟩
      intro a ha hb
      rcases List.mem_singleton.mp hb with rfl
      exact hcond.2 (by simpa using ha)
    · rw [if_neg hcond]
      exact ih _ hacc

theorem normalize_ids_mem (single : Option String) (many : Option (List String))
    (x : String) :
    x ∈ normalize_ids single many ↔
      x ≠ "" ∧ ((∃ v, single = some v ∧ str_trim v = x) ∨
        (∃ l, many = some l ∧ ∃ v ∈ l, str_trim v = x)) := by
  have hinit : ∀ y, (y ∈ (match single with
      | some value => if str_trim value ≠ "" then [str_trim value] else []
      | none => ([] : List String))) ↔
      (y ≠ "" ∧ ∃ v, single = some v ∧ str_trim v = y) := by
    intro y
    cases single with
    | none => simp
    | some v =>
      show (y ∈ if str_trim v ≠ "" then [str_trim v] else []) ↔ _
      by_cases hv : str_trim v ≠ ""
      · rw [if_pos hv]
        constructor
        · intro hy
          rcases List.mem_singleton.mp hy with rfl
          exact ⟨hv, v, rfl, rfl⟩
        · rintro ⟨-, u, hu, hut⟩
          obtain rfl := Option.some.inj hu
          simp [hut]
      · rw [if_neg hv]
        have hv : str_trim v = "" := not_not.mp hv
        constructor
        · intro hy
          simp at hy
        · rintro ⟨hne, u, hu, hut⟩
          obtain rfl := Option.some.inj hu
          exact absurd (hut ▸ hv) hne
  unfold normalize_ids
  cases many with
  | none =>
    rw [hinit x]
    constructor
    · rintro ⟨hne, hv⟩
      exact ⟨hne, Or.inl hv⟩
    · rintro ⟨hne, hv | ⟨l, hl, -⟩⟩
      · exact ⟨hne, hv⟩
      · exact Option.noConfusion hl
  | some l =>
    rw [normalize_fold_mem, hinit x]
    constructor
    · rintro (⟨hne, hv⟩ | ⟨hne, hv⟩)
      · exact ⟨hne, Or.inl hv⟩
      · exact ⟨hne, Or.inr ⟨l, rfl, hv⟩⟩
    · rintro ⟨hne, hv | ⟨l₂, hl, hv⟩⟩
      · exact Or.inl ⟨hne, hv⟩
      · obtain rfl := Option.some.inj hl
        exact Or.inr ⟨hne, hv⟩

theorem normalize_ids_nodup (single : Option String)
    (many : Option (List String)) : (normalize_ids single many).Nodup := by
  unfold normalize_ids
  have hinit : (match single with
      | some value => if str_trim value ≠ "" then [str_trim value] else []
      | none => ([] : List String)).Nodup := by
    cases single with
    | none => simp
    | some v =>
      show (if str_trim v ≠ "" then [str_trim v] else []).Nodup
      by_cases hv : str_trim v ≠ ""
      · rw [if_pos hv]
        exact List.nodup_singleton _
      · rw [if_neg hv]
        simp
  cases many with
  | none => exact hinit
  | some l => exact normalize_fold_nodup l _ hinit

theorem normalize_ids_eq_nil_iff (single : Option String)
    (many : Option (List String)) :
    normalize_ids single many = [] ↔
      (∀ v, single = some v → str_trim v = "") ∧
      (∀ l, many = some l → ∀ v ∈ l, str_trim v = "") := by
  rw [List.eq_nil_iff_forall_not_mem]
  constructor
  · intro h
    constructor
    · intro v hv
      by_contra hne
      have hmem := (normalize_ids_mem single many (str_trim v)).mpr
        ⟨hne, Or.inl ⟨v, hv, rfl⟩⟩
      exact h (str_trim v) hmem
    · intro l hl v hv
      by_contra hne
      have hmem := (normalize_ids_mem single many (str_trim v)).mpr
        ⟨hne, Or.inr ⟨l, hl, v, hv, rfl⟩⟩
      exact h (str_trim v) hmem
  · rintro ⟨hs, hm⟩ x hx
    rw [normalize_ids_mem] at hx
    obtain ⟨hne, hv | ⟨l, hl, u, hu, hut⟩⟩ := hx
    · obtain ⟨v, hv, hvt⟩ := hv
      exact hne (hvt ▸ hs v hv)
    · exact hne (hut ▸ hm l hl u hu)

/-- C4: expand rejects exactly the payloads with no non-empty trimmed
workflow id; with workflow ids but no execution ids it emits one
wildcard grant per (deduplicated, trimmed) workflow id; otherwise it
emits exactly the cross-product, with iat, exp and user_id copied into
every grant; normalized id lists are duplicate-free and consist of the
non-whitespace trimmed inputs. -/
theorem claim_C4_expand (p : ExecutionTokenPayload) :
    ((∃ e, p.expand = .error e) ↔
      (∀ v, p.workflow_id = some v → str_trim v = "") ∧
      (∀ l, p.workflow_ids = some l → ∀ v ∈ l, str_trim v = "")) ∧
    (normalize_ids p.workflow_id p.workflow_ids).Nodup ∧
    (normalize_ids p.execution_id p.execution_ids).Nodup ∧
    (∀ x, x ∈ normalize_ids p.workflow_id p.workflow_ids ↔
      x ≠ "" ∧ ((∃ v, p.workflow_id = some v ∧ str_trim v = x) ∨
        (∃ l, p.workflow_ids = some l ∧ ∃ v ∈ l, str_trim v = x))) ∧
    (∀ x, x ∈ normalize_ids p.execution_id p.execution_ids ↔
      x ≠ "" ∧ ((∃ v, p.execution_id = some v ∧ str_trim v = x) ∨
        (∃ l, p.execution_ids = some l ∧ ∃ v ∈ l, str_trim v = x))) ∧
    (normalize_ids p.workflow_id p.workflow_ids ≠ [] →
      normalize_ids p.execution_id p.execution_ids = [] →
      p.expand = .ok ((normalize_ids p.workflow_id p.workflow_ids).map
        (fun workflow_id =>
          { execution_id := none, workflow_id := workflow_id, iat := p.iat,
            exp := p.exp, user_id := p.user_id }))) ∧
    (normalize_ids p.workflow_id p.workflow_ids ≠ [] →
      normalize_ids p.execution_id p.execution_ids ≠ [] →
      p.expand = .ok ((normalize_ids p.workflow_id p.workflow_ids).flatMap
        (fun workflow_id =>
          (normalize_ids p.execution_id p.execution_ids).map
            (fun execution_id =>
              { execution_id := some execution_id, workflow_id := workflow_id,
                iat := p.iat, exp := p.exp, user_id := p.user_id })))) := by
  refine ⟨?_, normalize_ids_nodup _ _, normalize_ids_nodup _ _,
    normalize_ids_mem _ _, normalize_ids_mem _ _, ?_, ?_⟩
  · rw [← normalize_ids_eq_nil_iff]
    unfold ExecutionTokenPayload.expand
    by_cases hwf : (normalize_ids p.workflow_id p.workflow_ids).isEmpty
    · rw [if_pos hwf]
      simp only [List.isEmpty_iff] at hwf
      exact ⟨fun _ => hwf, fun _ => ⟨_, rfl⟩⟩
    · rw [if_neg hwf]
      simp only [List.isEmpty_iff] at hwf
      constructor
      · rintro ⟨e, he⟩
        by_cases hex : (normalize_ids p.execution_id p.execution_ids).isEmpty
        · rw [if_pos hex] at he
          exact Except.noConfusion he
        · rw [if_neg hex] at he
          exact Except.noConfusion he
      · intro h
        exact absurd h hwf
  · intro hwf hex
    unfold ExecutionTokenPayload.expand
    rw [if_neg (by simpa [List.isEmpty_iff] using hwf),
      if_pos (by simpa [List.isEmpty_iff] using hex)]
  · intro hwf hex
    unfold ExecutionTokenPayload.expand
    rw [if_neg (by simpa [List.isEmpty_iff] using hwf),
      if_neg (by simpa [List.isEmpty_iff] using hex)]

/-- Witness for C4: the sample payload expands to the 2 × 2
cross-product. -/
theorem claim_C4_expand_witness :
    samplePayload.expand = .ok
      [{ execution_id := some "e1", workflow_id := "w1", iat := 1, exp := 2,
         user_id := "u" },
       { execution_id := some "e2", workflow_id := "w1", iat := 1, exp := 2,
         user_id := "u" },
       { execution_id := some "e1", workflow_id := "w2", iat := 1, exp := 2,
         user_id := "u" },
       { execution_id := some "e2", workflow_id := "w2", iat := 1, exp := 2,
         user_id := "u" }] := by
  have h := (claim_C4_expand samplePayload).2.2.2.2.2.2
    (by decide) (by decide)
  rw [h]
  rfl

/-! ## Lemmas on schema normalization -/

theorem getVal_extendVal_sorted (m src : List (String × Json))
    (hsrc : Json.SortedKeys src) (k : String) :
    Json.getVal k (Json.extendVal m src) =
      match Json.getVal k src with
      | some v => some v
      | none => Json.getVal k m := by
  rw [Json.getVal_extendVal, Json.getVal_reverse_of_sorted src hsrc k]

theorem getVal_condExtendVal (m src : List (String × Json)) (k : String) :
    Json.getVal k (condExtendVal m src) =
      match Json.getVal k m with
      | some v => some v
      | none => Json.getVal k src := by
  induction src generalizing m with
  | nil =>
    cases h : Json.getVal k m <;> simp [condExtendVal, Json.getVal, h]
  | cons kv rest ih =>
    show Json.getVal k (condExtendVal
      (if (Json.getVal kv.1 m).isSome then m
       else Json.insertVal m kv.1 kv.2) rest) = _
    rw [ih]
    by_cases hk : k = kv.1
    · cases h : Json.getVal kv.1 m with
      | some v =>
        rw [hk]
        simp [h, Json.getVal]
      | none =>
        rw [hk]
        simp [h, Json.getVal_insertVal_self, Json.getVal]
    · have hacc : Json.getVal k
          (if (Json.getVal kv.1 m).isSome then m
           else Json.insertVal m kv.1 kv.2) = Json.getVal k m := by
        split
        · rfl
        · exact Json.getVal_insertVal_ne _ _ _ _ hk
      rw [hacc]
      cases h : Json.getVal k m <;> simp [h, Json.getVal, hk]

theorem sortedKeys_condExtendVal (m src : List (String × Json))
    (hm : Json.SortedKeys m) : Json.SortedKeys (condExtendVal m src) := by
  induction src generalizing m with
  | nil => exact hm
  | cons kv rest ih =>
    show Json.SortedKeys (condExtendVal
      (if (Json.getVal kv.1 m).isSome then m
       else Json.insertVal m kv.1 kv.2) rest)
    refine ih _ ?_
    split
    · exact hm
    · exact Json.sortedKeys_insertVal _ _ _ hm

theorem normalize_node_base_eq :
    normalize_node_base =
      [("credentials", Json.null), ("error", Json.null), ("id", Json.str ""),
       ("name", Json.str ""), ("output", Json.obj []),
       ("parameters", Json.obj []), ("trigger", Json.bool false),
       ("type", Json.str "")] := by
  simp [normalize_node_base, Json.insertVal, -String.lt_iff_toList_lt]

theorem normalize_node_base_sorted : Json.SortedKeys normalize_node_base := by
  rw [normalize_node_base_eq, Json.SortedKeys]
  simp [List.pairwise_cons, -String.lt_iff_toList_lt]

theorem getVal_base_credentials :
    Json.getVal "credentials" normalize_node_base = some Json.null := by
  rw [normalize_node_base_eq]
  rfl

theorem getVal_base_error :
    Json.getVal "error" normalize_node_base = some Json.null := by
  rw [normalize_node_base_eq]
  rfl

theorem getVal_base_other (k : String) (h1 : k ≠ "id") (h2 : k ≠ "name")
    (h3 : k ≠ "trigger") (h4 : k ≠ "type") (h5 : k ≠ "parameters")
    (h6 : k ≠ "output") (h7 : k ≠ "credentials") (h8 : k ≠ "error") :
    Json.getVal k normalize_node_base = none := by
  rw [normalize_node_base_eq]
  simp [Json.getVal, h1, h2, h3, h4, h5, h6, h7, h8]

theorem normalize_node_extended_sorted (v : Json) :
    Json.SortedKeys (normalize_node_extended v) := by
  cases v <;> try exact normalize_node_base_sorted
  exact Json.sortedKeys_extendVal _ _ normalize_node_base_sorted

theorem getVal_normalize_node_extended (v : Json) (k : String) :
    Json.getVal k (normalize_node_extended v) =
      match v with
      | .obj o =>
        (match Json.getVal k o.reverse with
         | some w => some w
         | none => Json.getVal k normalize_node_base)
      | _ => Json.getVal k normalize_node_base := by
  cases v <;> simp [normalize_node_extended, Json.getVal_extendVal]

theorem getVal_extended_isSome (v : Json) (k : String)
    (hb : ∃ w, Json.getVal k normalize_node_base = some w) :
    ∃ w, Json.getVal k (normalize_node_extended v) = some w := by
  obtain ⟨w, hw⟩ := hb
  rw [getVal_normalize_node_extended]
  cases v <;> try exact ⟨w, hw⟩
  rename_i o
  cases h : Json.getVal k o.reverse with
  | some u => exact ⟨u, by simp [h]⟩
  | none => exact ⟨w, by simp [h, hw]⟩

theorem getVal_coerced_untouched (v : Json) (k : String) (h1 : k ≠ "id")
    (h2 : k ≠ "name") (h3 : k ≠ "type") (h4 : k ≠ "trigger")
    (h5 : k ≠ "parameters") (h6 : k ≠ "output") :
    Json.getVal k (normalize_node_coerced v) =
      Json.getVal k (normalize_node_extended v) := by
  simp only [normalize_node_coerced]
  rw [Json.getVal_insertVal_ne _ _ _ _ h6, Json.getVal_insertVal_ne _ _ _ _ h5,
    Json.getVal_insertVal_ne _ _ _ _ h4, Json.getVal_insertVal_ne _ _ _ _ h3,
    Json.getVal_insertVal_ne _ _ _ _ h2, Json.getVal_insertVal_ne _ _ _ _ h1]

theorem getVal_coerced_id (v : Json) :
    Json.getVal "id" (normalize_node_coerced v) =
      some (.str (((Json.getVal "id" (normalize_node_extended v)).bind
        Json.asStr).getD "")) := by
  simp only [normalize_node_coerced]
  rw [Json.getVal_insertVal_ne _ _ _ _ (by decide),
    Json.getVal_insertVal_ne _ _ _ _ (by decide),
    Json.getVal_insertVal_ne _ _ _ _ (by decide),
    Json.getVal_insertVal_ne _ _ _ _ (by decide),
    Json.getVal_insertVal_ne _ _ _ _ (by decide),
    Json.getVal_insertVal_self]

theorem getVal_coerced_name (v : Json) :
    Json.getVal "name" (normalize_node_coerced v) =
      some (.str (((Json.getVal "name" (normalize_node_extended v)).bind
        Json.asStr).getD "")) := by
  simp only [normalize_node_coerced]
  rw [Json.getVal_insertVal_ne _ _ _ _ (by decide),
    Json.getVal_insertVal_ne _ _ _ _ (by decide),
    Json.getVal_insertVal_ne _ _ _ _ (by decide),
    Json.getVal_insertVal_ne _ _ _ _ (by decide),
    Json.getVal_insertVal_self,
    Json.getVal_insertVal_ne _ _ _ _ (by decide)]

theorem getVal_coerced_type (v : Json) :
    Json.getVal "type" (normalize_node_coerced v) =
      some (.str (((Json.getVal "type" (normalize_node_extended v)).bind
        Json.asStr).getD "")) := by
  simp only [normalize_node_coerced]
  rw [Json.getVal_insertVal_ne _ _ _ _ (by decide),
    Json.getVal_insertVal_ne _ _ _ _ (by decide),
    Json.getVal_insertVal_ne _ _ _ _ (by decide),
    Json.getVal_insertVal_self,
    Json.getVal_insertVal_ne _ _ _ _ (by decide),
    Json.getVal_insertVal_ne _ _ _ _ (by decide)]

theorem getVal_coerced_trigger (v : Json) :
    Json.getVal "trigger" (normalize_node_coerced v) =
      some (.bool (((Json.getVal "trigger" (normalize_node_extended v)).bind
        Json.asBool).getD false)) := by
  simp only [normalize_node_coerced]
  rw [Json.getVal_insertVal_ne _ _ _ _ (by decide),
    Json.getVal_insertVal_ne _ _ _ _ (by decide),
    Json.getVal_insertVal_self,
    Json.getVal_insertVal_ne _ _ _ _ (by decide),
    Json.getVal_insertVal_ne _ _ _ _ (by decide),
    Json.getVal_insertVal_ne _ _ _ _ (by decide)]

theorem getVal_coerced_parameters (v : Json) :
    Json.getVal "parameters" (normalize_node_coerced v) =
      some (.obj (((Json.getVal "parameters" (normalize_node_extended v)).bind
        Json.asObject).getD [])) := by
  simp only [normalize_node_coerced]
  rw [Json.getVal_insertVal_ne _ _ _ _ (by decide),
    Json.getVal_insertVal_self,
    Json.getVal_insertVal_ne _ _ _ _ (by decide),
    Json.getVal_insertVal_ne _ _ _ _ (by decide),
    Json.getVal_insertVal_ne _ _ _ _ (by decide),
    Json.getVal_insertVal_ne _ _ _ _ (by decide)]

theorem getVal_coerced_output (v : Json) :
    Json.getVal "output" (normalize_node_coerced v) =
      some (.obj (((Json.getVal "output" (normalize_node_extended v)).bind
        Json.asObject).getD [])) := by
  simp only [normalize_node_coerced]
  rw [Json.getVal_insertVal_self,
    Json.getVal_insertVal_ne _ _ _ _ (by decide),
    Json.getVal_insertVal_ne _ _ _ _ (by decide),
    Json.getVal_insertVal_ne _ _ _ _ (by decide),
    Json.getVal_insertVal_ne _ _ _ _ (by decide),
    Json.getVal_insertVal_ne _ _ _ _ (by decide)]

theorem normalize_node_coerced_sorted (v : Json) :
    Json.SortedKeys (normalize_node_coerced v) := by
  simp only [normalize_node_coerced]
  exact Json.sortedKeys_insertVal _ _ _ (Json.sortedKeys_insertVal _ _ _
    (Json.sortedKeys_insertVal _ _ _ (Json.sortedKeys_insertVal _ _ _
      (Json.sortedKeys_insertVal _ _ _ (Json.sortedKeys_insertVal _ _ _
        (normalize_node_extended_sorted v))))))

theorem normalize_node_map_eq (v : Json) :
    normalize_node_map v =
      Json.insertVal (normalize_node_coerced v) "credentials" Json.null := by
  obtain ⟨w, hw⟩ : ∃ w, Json.getVal "credentials" (normalize_node_coerced v) =
      some w := by
    rw [getVal_coerced_untouched v _ (by decide) (by decide) (by decide)
      (by decide) (by decide) (by decide)]
    exact getVal_extended_isSome v _ ⟨_, getVal_base_credentials⟩
  obtain ⟨w₂, hw₂⟩ : ∃ w₂, Json.getVal "error"
      (Json.insertVal (normalize_node_coerced v) "credentials" Json.null) =
      some w₂ := by
    rw [Json.getVal_insertVal_ne _ _ _ _ (by decide),
      getVal_coerced_untouched v _ (by decide) (by decide) (by decide)
        (by decide) (by decide) (by decide)]
    exact getVal_extended_isSome v _ ⟨_, getVal_base_error⟩
  simp only [normalize_node_map]
  rw [hw]
  simp only [Option.isSome_some, if_true]
  rw [hw₂]
  simp

theorem normalize_node_map_sorted (v : Json) :
    Json.SortedKeys (normalize_node_map v) := by
  rw [normalize_node_map_eq]
  exact Json.sortedKeys_insertVal _ _ _ (normalize_node_coerced_sorted v)

theorem getVal_map_credentials (v : Json) :
    Json.getVal "credentials" (normalize_node_map v) = some Json.null := by
  rw [normalize_node_map_eq]
  exact Json.getVal_insertVal_self _ _ _

theorem getVal_map_of_ne_cred (v : Json) (k : String)
    (hc : k ≠ "credentials") :
    Json.getVal k (normalize_node_map v) =
      Json.getVal k (normalize_node_coerced v) := by
  rw [normalize_node_map_eq]
  exact Json.getVal_insertVal_ne _ _ _ _ hc

theorem getVal_map_error (v : Json) :
    ∃ w, Json.getVal "error" (normalize_node_map v) = some w := by
  rw [getVal_map_of_ne_cred v _ (by decide),
    getVal_coerced_untouched v _ (by decide) (by decide) (by decide)
      (by decide) (by decide) (by decide)]
  exact getVal_extended_isSome v _ ⟨_, getVal_base_error⟩

theorem getVal_map_untouched (v : Json) (k : String) (h1 : k ≠ "id")
    (h2 : k ≠ "name") (h3 : k ≠ "type") (h4 : k ≠ "trigger")
    (h5 : k ≠ "parameters") (h6 : k ≠ "output") (h7 : k ≠ "credentials") :
    Json.getVal k (normalize_node_map v) =
      Json.getVal k (normalize_node_extended v) := by
  rw [getVal_map_of_ne_cred v _ h7,
    getVal_coerced_untouched v _ h1 h2 h3 h4 h5 h6]

theorem getVal_map_id (v : Json) :
    Json.getVal "id" (normalize_node_map v) =
      some (.str (((Json.getVal "id" (normalize_node_extended v)).bind
        Json.asStr).getD "")) := by
  rw [getVal_map_of_ne_cred v _ (by decide), getVal_coerced_id]

theorem getVal_map_name (v : Json) :
    Json.getVal "name" (normalize_node_map v) =
      some (.str (((Json.getVal "name" (normalize_node_extended v)).bind
        Json.asStr).getD "")) := by
  rw [getVal_map_of_ne_cred v _ (by decide), getVal_coerced_name]

theorem getVal_map_type (v : Json) :
    Json.getVal "type" (normalize_node_map v) =
      some (.str (((Json.getVal "type" (normalize_node_extended v)).bind
        Json.asStr).getD "")) := by
  rw [getVal_map_of_ne_cred v _ (by decide), getVal_coerced_type]

theorem getVal_map_trigger (v : Json) :
    Json.getVal "trigger" (normalize_node_map v) =
      some (.bool (((Json.getVal "trigger" (normalize_node_extended v)).bind
        Json.asBool).getD false)) := by
  rw [getVal_map_of_ne_cred v _ (by decide), getVal_coerced_trigger]

theorem getVal_map_parameters (v : Json) :
    Json.getVal "parameters" (normalize_node_map v) =
      some (.obj (((Json.getVal "parameters" (normalize_node_extended v)).bind
        Json.asObject).getD [])) := by
  rw [getVal_map_of_ne_cred v _ (by decide), getVal_coerced_parameters]

theorem getVal_map_output (v : Json) :
    Json.getVal "output" (normalize_node_map v) =
      some (.obj (((Json.getVal "output" (normalize_node_extended v)).bind
        Json.asObject).getD [])) := by
  rw [getVal_map_of_ne_cred v _ (by decide), getVal_coerced_output]

/-- Normalizing an already normalized node is a no-op. -/
theorem normalize_node_map_fix (v : Json) :
    normalize_node_map (.obj (normalize_node_map v)) = normalize_node_map v := by
  have hRs := normalize_node_map_sorted v
  have hid := getVal_map_id v
  have hname := getVal_map_name v
  have htyp := getVal_map_type v
  have htrig := getVal_map_trigger v
  have hpar := getVal_map_parameters v
  have hout := getVal_map_output v
  have hcred := getVal_map_credentials v
  obtain ⟨werr, herr⟩ := getVal_map_error v
  have hext : ∀ k, Json.getVal k
      (normalize_node_extended (.obj (normalize_node_map v))) =
      Json.getVal k (normalize_node_map v) := by
    intro k
    rw [getVal_normalize_node_extended]
    show (match Json.getVal k (normalize_node_map v).reverse with
      | some w => some w
      | none => Json.getVal k normalize_node_base) = _
    rw [Json.getVal_reverse_of_sorted _ hRs k]
    cases hr : Json.getVal k (normalize_node_map v) with
    | some w => rfl
    | none =>
      have h1 : k ≠ "id" := by
        rintro rfl; rw [hid] at hr; exact Option.noConfusion hr
      have h2 : k ≠ "name" := by
        rintro rfl; rw [hname] at hr; exact Option.noConfusion hr
      have h3 : k ≠ "trigger" := by
        rintro rfl; rw [htrig] at hr; exact Option.noConfusion hr
      have h4 : k ≠ "type" := by
        rintro rfl; rw [htyp] at hr; exact Option.noConfusion hr
      have h5 : k ≠ "parameters" := by
        rintro rfl; rw [hpar] at hr; exact Option.noConfusion hr
      have h6 : k ≠ "output" := by
        rintro rfl; rw [hout] at hr; exact Option.noConfusion hr
      have h7 : k ≠ "credentials" := by
        rintro rfl; rw [hcred] at hr; exact Option.noConfusion hr
      have h8 : k ≠ "error" := by
        rintro rfl; rw [herr] at hr; exact Option.noConfusion hr
      rw [getVal_base_other k h1 h2 h3 h4 h5 h6 h7 h8]
  have hextlist : normalize_node_extended (.obj (normalize_node_map v)) =
      normalize_node_map v :=
    Json.sorted_ext _ _ (normalize_node_extended_sorted _) hRs hext
  have hco : ∀ k, Json.getVal k
      (normalize_node_coerced (.obj (normalize_node_map v))) =
      Json.getVal k (normalize_node_map v) := by
    intro k
    by_cases h1 : k = "id"
    · subst h1
      rw [getVal_coerced_id, hextlist, hid]
      simp [Json.asStr]
    · by_cases h2 : k = "name"
      · subst h2
        rw [getVal_coerced_name, hextlist, hname]
        simp [Json.asStr]
      · by_cases h3 : k = "type"
        · subst h3
          rw [getVal_coerced_type, hextlist, htyp]
          simp [Json.asStr]
        · by_cases h4 : k = "trigger"
          · subst h4
            rw [getVal_coerced_trigger, hextlist, htrig]
            simp [Json.asBool]
          · by_cases h5 : k = "parameters"
            · subst h5
              rw [getVal_coerced_parameters, hextlist, hpar]
              simp [Json.asObject]
            · by_cases h6 : k = "output"
              · subst h6
                rw [getVal_coerced_output, hextlist, hout]
                simp [Json.asObject]
              · rw [getVal_coerced_untouched _ _ h1 h2 h3 h4 h5 h6, hextlist]
  have hcolist : normalize_node_coerced (.obj (normalize_node_map v)) =
      normalize_node_map v :=
    Json.sorted_ext _ _ (normalize_node_coerced_sorted _) hRs hco
  rw [normalize_node_map_eq (.obj (normalize_node_map v)), hcolist]
  exact Json.insertVal_of_getVal_eq _ _ _ hRs hcred

/-- fn normalize_node is idempotent. -/
theorem normalize_node_fix (v : Json) :
    normalize_node (normalize_node v) = normalize_node v := by
  unfold normalize_node
  rw [normalize_node_map_fix]

theorem edge_base_eq (i s d : String) :
    Json.insertVal (Json.insertVal (Json.insertVal [] "id" (.str i)) "src"
      (.str s)) "dst" (.str d) =
      [("dst", Json.str d), ("id", Json.str i), ("src", Json.str s)] := by
  simp [Json.insertVal, -String.lt_iff_toList_lt]

theorem edge_base_sorted (i s d : String) :
    Json.SortedKeys [("dst", Json.str d), ("id", Json.str i),
      ("src", Json.str s)] := by
  rw [Json.SortedKeys]
  simp [List.pairwise_cons, -String.lt_iff_toList_lt]

theorem normalize_edge_map_eq (e : Json) (fid : Option String) :
    normalize_edge_map e fid =
      match e.asObject with
      | some o => condExtendVal [("dst", Json.str (edge_dst_of e)),
          ("id", Json.str (edge_id_of e fid)),
          ("src", Json.str (edge_src_of e))] o
      | none => [("dst", Json.str (edge_dst_of e)),
          ("id", Json.str (edge_id_of e fid)),
          ("src", Json.str (edge_src_of e))] := by
  simp only [normalize_edge_map, edge_base_eq]
  rcases ho : e.asObject with _ | o <;>
    simp [ho, edge_id_of, edge_src_of, edge_dst_of]

theorem normalize_edge_map_sorted (e : Json) (fid : Option String) :
    Json.SortedKeys (normalize_edge_map e fid) := by
  rw [normalize_edge_map_eq]
  rcases e.asObject with _ | o
  · exact edge_base_sorted _ _ _
  · exact sortedKeys_condExtendVal _ _ (edge_base_sorted _ _ _)

theorem getVal_edge_map (e : Json) (fid : Option String) (k : String) :
    Json.getVal k (normalize_edge_map e fid) =
      match Json.getVal k [("dst", Json.str (edge_dst_of e)),
        ("id", Json.str (edge_id_of e fid)),
        ("src", Json.str (edge_src_of e))] with
      | some w => some w
      | none =>
        match e.asObject with
        | some o => Json.getVal k o
        | none => none := by
  rw [normalize_edge_map_eq]
  rcases e.asObject with _ | o
  · cases h : Json.getVal k [("dst", Json.str (edge_dst_of e)),
      ("id", Json.str (edge_id_of e fid)),
      ("src", Json.str (edge_src_of e))] <;> simp [h]
  · rw [getVal_condExtendVal]

theorem getVal_edge_map_dst (e : Json) (fid : Option String) :
    Json.getVal "dst" (normalize_edge_map e fid) =
      some (Json.str (edge_dst_of e)) := by
  rw [getVal_edge_map]
  rfl

theorem getVal_edge_map_id (e : Json) (fid : Option String) :
    Json.getVal "id" (normalize_edge_map e fid) =
      some (Json.str (edge_id_of e fid)) := by
  rw [getVal_edge_map]
  rfl

theorem getVal_edge_map_src (e : Json) (fid : Option String) :
    Json.getVal "src" (normalize_edge_map e fid) =
      some (Json.str (edge_src_of e)) := by
  rw [getVal_edge_map]
  rfl

theorem getVal_edge_map_other (e : Json) (fid : Option String) (k : String)
    (h1 : k ≠ "dst") (h2 : k ≠ "id") (h3 : k ≠ "src") :
    Json.getVal k (normalize_edge_map e fid) =
      match e.asObject with
      | some o => Json.getVal k o
      | none => none := by
  rw [getVal_edge_map]
  simp [Json.getVal, h1, h2, h3]

/-- Normalizing an already normalized edge is a no-op, for any fallback
id of the second pass. -/
theorem normalize_edge_map_fix (e : Json) (fid fid₂ : Option String) :
    normalize_edge_map (.obj (normalize_edge_map e fid)) fid₂ =
      normalize_edge_map e fid := by
  have hRs := normalize_edge_map_sorted e fid
  have hid2 : edge_id_of (.obj (normalize_edge_map e fid)) fid₂ =
      edge_id_of e fid := by
    unfold edge_id_of
    show ((((some (normalize_edge_map e fid)).bind (Json.getVal "id")).bind
      Json.asStr).orElse (fun _ => fid₂)).getD "" = _
    rw [Option.some_bind, getVal_edge_map_id]
    simp [Json.asStr, Option.orElse]
    rfl
  have hsrc2 : edge_src_of (.obj (normalize_edge_map e fid)) = edge_src_of e := by
    unfold edge_src_of
    show (((some (normalize_edge_map e fid)).bind (Json.getVal "src")).bind
      Json.asStr).getD "" = _
    rw [Option.some_bind, getVal_edge_map_src]
    simp [Json.asStr]
    rfl
  have hdst2 : edge_dst_of (.obj (normalize_edge_map e fid)) = edge_dst_of e := by
    unfold edge_dst_of
    show (((some (normalize_edge_map e fid)).bind (Json.getVal "dst")).bind
      Json.asStr).getD "" = _
    rw [Option.some_bind, getVal_edge_map_dst]
    simp [Json.asStr]
    rfl
  have hpt : ∀ k, Json.getVal k (normalize_edge_map
      (.obj (normalize_edge_map e fid)) fid₂) =
      Json.getVal k (normalize_edge_map e fid) := by
    intro k
    rw [getVal_edge_map]
    show (match Json.getVal k [("dst", Json.str (edge_dst_of
        (.obj (normalize_edge_map e fid)))),
      ("id", Json.str (edge_id_of (.obj (normalize_edge_map e fid)) fid₂)),
      ("src", Json.str (edge_src_of (.obj (normalize_edge_map e fid))))] with
      | some w => some w
      | none => Json.getVal k (normalize_edge_map e fid)) = _
    rw [hid2, hsrc2, hdst2]
    by_cases h1 : k = "dst"
    · subst h1
      simp [Json.getVal, getVal_edge_map_dst]
    · by_cases h2 : k = "id"
      · subst h2
        simp [Json.getVal, h1, getVal_edge_map_id]
      · by_cases h3 : k = "src"
        · subst h3
          simp [Json.getVal, h1, h2, getVal_edge_map_src]
        · have : Json.getVal k [("dst", Json.str (edge_dst_of e)),
              ("id", Json.str (edge_id_of e fid)),
              ("src", Json.str (edge_src_of e))] = none := by
            simp [Json.getVal, h1, h2, h3]
          rw [this]
  exact Json.sorted_ext _ _ (normalize_edge_map_sorted _ _) hRs hpt

theorem normalize_edges_some_arr (l : List Json) :
    normalize_edges (some (.arr l)) = l.map normalize_edge := rfl

theorem normalize_nodes_arr (l : List Json) :
    normalize_nodes (.arr l) = l.map normalize_node := rfl

/-- Every edge emitted by normalize_edges is a fixed point of
normalize_edge. -/
theorem normalize_edges_fix (raw : Option Json) :
    (normalize_edges raw).map normalize_edge = normalize_edges raw := by
  rcases raw with _ | v
  · rfl
  · cases v with
    | arr es =>
      show (es.map normalize_edge).map normalize_edge = es.map normalize_edge
      rw [List.map_map]
      apply List.map_congr_left
      intro e he
      show normalize_edge (normalize_edge e) = normalize_edge e
      unfold normalize_edge normalize_edge_with_id
      rw [normalize_edge_map_fix]
    | obj m =>
      show ((m.map fun kv => normalize_edge_with_id kv.2 (some kv.1)).map
        normalize_edge) = m.map fun kv => normalize_edge_with_id kv.2 (some kv.1)
      rw [List.map_map]
      apply List.map_congr_left
      intro kv hkv
      show normalize_edge (normalize_edge_with_id kv.2 (some kv.1)) =
        normalize_edge_with_id kv.2 (some kv.1)
      unfold normalize_edge normalize_edge_with_id
      rw [normalize_edge_map_fix]
    | null => rfl
    | bool b => rfl
    | num n => rfl
    | str s => rfl

/-- Every node emitted by normalize_nodes is a fixed point of
normalize_node. -/
theorem normalize_nodes_fix (raw : Json) :
    (normalize_nodes raw).map normalize_node = normalize_nodes raw := by
  cases raw with
  | arr ns =>
    show (ns.map normalize_node).map normalize_node = ns.map normalize_node
    rw [List.map_map]
    apply List.map_congr_left
    intro n hn
    exact normalize_node_fix n
  | obj m =>
    show ((m.map fun kv => normalize_node (.obj (match kv.2 with
        | .obj o => Json.extendVal (Json.insertVal [] "id" (.str kv.1)) o
        | _ => Json.insertVal [] "id" (.str kv.1)))).map normalize_node) = _
    rw [List.map_map]
    apply List.map_congr_left
    intro kv hkv
    exact normalize_node_fix _
  | null => rfl
  | bool b => rfl
  | num n => rfl
  | str s => rfl

theorem normalize_workflow_definition_eq (v : Json) :
    normalize_workflow_definition v = .obj (Json.insertVal (Json.insertVal
      (v.asObject.getD []) "edges"
      (.arr (normalize_edges (v.asObject.bind (Json.getVal "edges")))))
      "nodes" (.arr (normalize_nodes ((v.asObject.bind
        (Json.getVal "nodes")).getD (.arr []))))) := rfl

theorem workflow_second_pass (wf0 : List (String × Json)) (EA NA : List Json)
    (hwf0 : Json.SortedKeys wf0)
    (hEfix : EA.map normalize_edge = EA) (hNfix : NA.map normalize_node = NA) :
    normalize_workflow_definition (.obj (Json.insertVal (Json.insertVal wf0
      "edges" (.arr EA)) "nodes" (.arr NA))) =
      .obj (Json.insertVal (Json.insertVal wf0 "edges" (.arr EA)) "nodes"
        (.arr NA)) := by
  have hWs : Json.SortedKeys (Json.insertVal (Json.insertVal wf0 "edges"
      (.arr EA)) "nodes" (.arr NA)) :=
    Json.sortedKeys_insertVal _ _ _ (Json.sortedKeys_insertVal _ _ _ hwf0)
  have hedges : Json.getVal "edges" (Json.insertVal (Json.insertVal wf0
      "edges" (.arr EA)) "nodes" (.arr NA)) = some (.arr EA) := by
    rw [Json.getVal_insertVal_ne _ _ _ _ (by decide),
      Json.getVal_insertVal_self]
  have hnodes : Json.getVal "nodes" (Json.insertVal (Json.insertVal wf0
      "edges" (.arr EA)) "nodes" (.arr NA)) = some (.arr NA) :=
    Json.getVal_insertVal_self _ _ _
  rw [normalize_workflow_definition_eq]
  simp only [Json.asObject, Option.getD_some, Option.some_bind]
  rw [hedges, hnodes, normalize_edges_some_arr, hEfix]
  simp only [Option.getD_some]
  rw [normalize_nodes_arr, hNfix,
    Json.insertVal_of_getVal_eq _ _ _ hWs hedges,
    Json.insertVal_of_getVal_eq _ _ _ hWs hnodes]

/-- C8: workflow-definition schema normalization is idempotent on every
JSON value in serde canonical form (top-level object keys sorted):
normalizing a normalized workflow is a no-op. -/
theorem claim_C8_normalization_idempotent (v : Json)
    (hv : Json.TopLevelSorted v) :
    normalize_workflow_definition (normalize_workflow_definition v) =
      normalize_workflow_definition v := by
  have hwf0 : Json.SortedKeys (v.asObject.getD []) := by
    cases v with
    | obj m => exact hv
    | null => exact List.Pairwise.nil
    | bool b => exact List.Pairwise.nil
    | num n => exact List.Pairwise.nil
    | str s => exact List.Pairwise.nil
    | arr l => exact List.Pairwise.nil
  rw [normalize_workflow_definition_eq v]
  exact workflow_second_pass _ _ _ hwf0 (normalize_edges_fix _)
    (normalize_nodes_fix _)

/-- Witness for C8 at a concrete workflow. -/
theorem claim_C8_normalization_idempotent_witness :
    normalize_workflow_definition (normalize_workflow_definition
      sampleWorkflow) = normalize_workflow_definition sampleWorkflow :=
  claim_C8_normalization_idempotent sampleWorkflow
    (by simp only [sampleWorkflow, Json.TopLevelSorted, Json.SortedKeys]
        simp [List.pairwise_cons, -String.lt_iff_toList_lt])

theorem getVal_base_id :
    Json.getVal "id" normalize_node_base = some (Json.str "") := by
  rw [normalize_node_base_eq]
  rfl

theorem getVal_base_name :
    Json.getVal "name" normalize_node_base = some (Json.str "") := by
  rw [normalize_node_base_eq]
  rfl

theorem getVal_base_trigger :
    Json.getVal "trigger" normalize_node_base = some (Json.bool false) := by
  rw [normalize_node_base_eq]
  rfl

theorem getVal_base_type :
    Json.getVal "type" normalize_node_base = some (Json.str "") := by
  rw [normalize_node_base_eq]
  rfl

theorem getVal_base_parameters :
    Json.getVal "parameters" normalize_node_base = some (Json.obj []) := by
  rw [normalize_node_base_eq]
  rfl

theorem getVal_base_output :
    Json.getVal "output" normalize_node_base = some (Json.obj []) := by
  rw [normalize_node_base_eq]
  rfl

theorem getVal_extended_of_sorted (m : List (String × Json))
    (hm : Json.SortedKeys m) (k : String) :
    Json.getVal k (normalize_node_extended (.obj m)) =
      match Json.getVal k m with
      | some w => some w
      | none => Json.getVal k normalize_node_base := by
  rw [getVal_normalize_node_extended]
  show (match Json.getVal k m.reverse with
    | some w => some w
    | none => Json.getVal k normalize_node_base) = _
  rw [Json.getVal_reverse_of_sorted m hm k]

/-- C6 counterexample: a node providing a credentials value does not
retain it — normalization replaces it with null. -/
theorem claim_C6_counterexample :
    Json.getVal "credentials" (normalize_node_map
      (Json.obj [("credentials", Json.str "secret")])) = some Json.null ∧
    Json.null ≠ Json.str "secret" :=
  ⟨getVal_map_credentials _, fun h => Json.noConfusion h⟩

/-- C6 (amended): normalization sets each missing mandatory field to
its default and preserves every provided non-mandatory field, and it
preserves provided well-typed mandatory fields with one exception:
credentials is always reset to null, whether or not the input provides
a value for it. -/
theorem claim_C6_normalize_node (m : List (String × Json))
    (hm : Json.SortedKeys m) :
    Json.getVal "credentials" (normalize_node_map (.obj m)) = some Json.null ∧
    (∀ k, k ≠ "id" → k ≠ "name" → k ≠ "trigger" → k ≠ "type" →
      k ≠ "parameters" → k ≠ "output" → k ≠ "credentials" → k ≠ "error" →
      Json.getVal k (normalize_node_map (.obj m)) = Json.getVal k m) ∧
    (Json.getVal "id" m = none →
      Json.getVal "id" (normalize_node_map (.obj m)) = some (.str "")) ∧
    (Json.getVal "name" m = none →
      Json.getVal "name" (normalize_node_map (.obj m)) = some (.str "")) ∧
    (Json.getVal "trigger" m = none →
      Json.getVal "trigger" (normalize_node_map (.obj m)) =
        some (.bool false)) ∧
    (Json.getVal "type" m = none →
      Json.getVal "type" (normalize_node_map (.obj m)) = some (.str "")) ∧
    (Json.getVal "parameters" m = none →
      Json.getVal "parameters" (normalize_node_map (.obj m)) =
        some (.obj [])) ∧
    (Json.getVal "output" m = none →
      Json.getVal "output" (normalize_node_map (.obj m)) = some (.obj [])) ∧
    (Json.getVal "error" m = none →
      Json.getVal "error" (normalize_node_map (.obj m)) = some .null) ∧
    (∀ s, Json.getVal "id" m = some (.str s) →
      Json.getVal "id" (normalize_node_map (.obj m)) = some (.str s)) ∧
    (∀ s, Json.getVal "name" m = some (.str s) →
      Json.getVal "name" (normalize_node_map (.obj m)) = some (.str s)) ∧
    (∀ s, Json.getVal "type" m = some (.str s) →
      Json.getVal "type" (normalize_node_map (.obj m)) = some (.str s)) ∧
    (∀ b, Json.getVal "trigger" m = some (.bool b) →
      Json.getVal "trigger" (normalize_node_map (.obj m)) =
        some (.bool b)) ∧
    (∀ o, Json.getVal "parameters" m = some (.obj o) →
      Json.getVal "parameters" (normalize_node_map (.obj m)) =
        some (.obj o)) ∧
    (∀ o, Json.getVal "output" m = some (.obj o) →
      Json.getVal "output" (normalize_node_map (.obj m)) = some (.obj o)) ∧
    (∀ e, Json.getVal "error" m = some e →
      Json.getVal "error" (normalize_node_map (.obj m)) = some e) := by
  have hE := getVal_extended_of_sorted m hm
  refine ⟨getVal_map_credentials _, ?_, ?_, ?_, ?_, ?_, ?_, ?_, ?_, ?_, ?_,
    ?_, ?_, ?_, ?_, ?_⟩
  · intro k h1 h2 h3 h4 h5 h6 h7 h8
    rw [getVal_map_untouched _ _ h1 h2 h4 h3 h5 h6 h7, hE k,
      getVal_base_other k h1 h2 h3 h4 h5 h6 h7 h8]
    cases Json.getVal k m <;> rfl
  · intro h
    rw [getVal_map_id, hE "id", h, getVal_base_id]
    rfl
  · intro h
    rw [getVal_map_name, hE "name", h, getVal_base_name]
    rfl
  · intro h
    rw [getVal_map_trigger, hE "trigger", h, getVal_base_trigger]
    rfl
  · intro h
    rw [getVal_map_type, hE "type", h, getVal_base_type]
    rfl
  · intro h
    rw [getVal_map_parameters, hE "parameters", h, getVal_base_parameters]
    rfl
  · intro h
    rw [getVal_map_output, hE "output", h, getVal_base_output]
    rfl
  · intro h
    rw [getVal_map_untouched _ _ (by decide) (by decide) (by decide)
      (by decide) (by decide) (by decide) (by decide), hE "error", h,
      getVal_base_error]
  · intro s h
    rw [getVal_map_id, hE "id", h]
    rfl
  · intro s h
    rw [getVal_map_name, hE "name", h]
    rfl
  · intro s h
    rw [getVal_map_type, hE "type", h]
    rfl
  · intro b h
    rw [getVal_map_trigger, hE "trigger", h]
    rfl
  · intro o h
    rw [getVal_map_parameters, hE "parameters", h]
    rfl
  · intro o h
    rw [getVal_map_output, hE "output", h]
    rfl
  · intro e h
    rw [getVal_map_untouched _ _ (by decide) (by decide) (by decide)
      (by decide) (by decide) (by decide) (by decide), hE "error", h]

/-- Witness for C6 at a concrete node. -/
theorem claim_C6_normalize_node_witness :
    Json.getVal "credentials" (normalize_node_map (.obj sampleNodeMap)) =
      some Json.null ∧
    Json.getVal "custom" (normalize_node_map (.obj sampleNodeMap)) =
      Json.getVal "custom" sampleNodeMap ∧
    Json.getVal "name" (normalize_node_map (.obj sampleNodeMap)) =
      some (Json.str "A") := by
  have h := claim_C6_normalize_node sampleNodeMap
    (by simp only [sampleNodeMap, Json.SortedKeys]
        simp [List.pairwise_cons, -String.lt_iff_toList_lt])
  exact ⟨h.1,
    h.2.1 "custom" (by decide) (by decide) (by decide) (by decide) (by decide)
      (by decide) (by decide) (by decide),
    h.2.2.2.2.2.2.2.2.2.2.1 "A" rfl⟩
